import Mathlib

set_option maxRecDepth 100000

/-!
# GidX crawl subsystem: tokenizer, link extractor and master dispatcher

A shallow embedding of `src/src/tokenizer.cpp` and `src/src/crawl_service.cpp`.

Conventions of the embedding:

* a `std::string` is the list of its bytes, each byte a natural number
  (`Str`); the functions are total on every list, so every statement proved
  for all `Str` holds for all byte strings;
* `std::tolower`, `::tolower`, `std::isalnum` and the regex class `\s` are taken
  in the "C" locale: only `A`..`Z` are folded, bytes `0x80`..`0xFF` are neither
  letters nor spaces;
* loops over an index `i` are folds over `List.range size`, range-for loops
  are folds over the string itself;
* the `std::regex` search of `extract_links` is embedded for the one pattern the
  source uses, following the ECMAScript grammar of the library;
* the `Crawl` RPC is an argument of `CrawlMaster.crawl`: any status and any
  response may come back;
* the body that `fetch_url` returns is an argument of `CrawlServiceImpl.Crawl`, and
  so is what the runtime decides during the call: an exception raised inside the
  `try` block, and the room on the stack for the recursion of the regex search;
* `size_t` arithmetic wraps modulo `2 ^ 64` where the source increments a
  stored counter.
-/

namespace gidx

/-! ## Strings -/

/-- A `std::string`: the list of its bytes. -/
abbrev Str := List Nat

/-- The bytes of an ASCII string literal. -/
def lit (s : String) : Str := s.toList.map Char.toNat

/-- The call `s.substr(pos, n)`: at most `n` bytes of `s` from index `pos`. -/
def substr (s : Str) (pos n : Nat) : Str := (s.drop pos).take n

/-- The call `std::tolower(c)` in the "C" locale: only `A`..`Z` are folded. -/
def tolower (c : Nat) : Nat := if 65 ≤ c ∧ c ≤ 90 then c + 32 else c

/-- The call `std::isalnum(c)` in the "C" locale: digits and ASCII letters. -/
def isalnum (c : Nat) : Bool :=
  (48 ≤ c && c ≤ 57) || (65 ≤ c && c ≤ 90) || (97 ≤ c && c ≤ 122)

/-! ## tokenizer.cpp -/

/-- The set `STOP_WORDS` of tokenizer.cpp, lines 10-24. -/
def STOP_WORDS : List Str :=
  ["a", "an", "the", "is", "are", "was", "were", "be", "been", "being",
   "have", "has", "had", "do", "does", "did", "will", "would", "shall",
   "should", "may", "might", "must", "can", "could", "am", "it", "its",
   "in", "on", "at", "to", "for", "of", "with", "by", "from", "as",
   "into", "through", "during", "before", "after", "above", "below",
   "between", "out", "off", "over", "under", "again", "further", "then",
   "once", "here", "there", "when", "where", "why", "how", "all", "both",
   "each", "few", "more", "most", "other", "some", "such", "no", "nor",
   "not", "only", "own", "same", "so", "than", "too", "very", "just",
   "because", "but", "and", "or", "if", "while", "about", "up", "that",
   "this", "these", "those", "he", "she", "they", "we", "you", "i", "me",
   "him", "her", "us", "them", "my", "your", "his", "our", "their", "what",
   "which", "who", "whom"].map lit

/-- The bytes of `"script"`. -/
def SCRIPT : Str := [115, 99, 114, 105, 112, 116]

/-- The bytes of `"style"`. -/
def STYLE : Str := [115, 116, 121, 108, 101]

/-- The local variables of `strip_html` that live across loop iterations. -/
structure StripState where
  in_tag : Bool
  in_script : Bool
  result : Str
deriving DecidableEq, Repr

/-- One iteration of the `for` loop of `strip_html` (lines 33-55), at index `i`. -/
def strip_html_step (html : Str) (st : StripState) (i : Nat) : StripState :=
  let c := html.getD i 0
  if !st.in_tag && c == 60 then
    let s1 : Bool :=
      if i + 7 < html.length then
        let tag_start := (substr html (i + 1) 6).map tolower
        if tag_start == SCRIPT || substr tag_start 0 5 == STYLE then true
        else st.in_script
      else st.in_script
    let s2 : Bool :=
      if i + 2 < html.length && html.getD (i + 1) 0 == 47 then
        let close_tag := (substr html (i + 2) 6).map tolower
        if substr close_tag 0 6 == SCRIPT || substr close_tag 0 5 == STYLE then false
        else s1
      else s1
    { in_tag := true, in_script := s2, result := st.result }
  else if st.in_tag && c == 62 then
    { in_tag := false, in_script := st.in_script, result := st.result ++ [32] }
  else if !st.in_tag && !st.in_script then
    { in_tag := st.in_tag, in_script := st.in_script, result := st.result ++ [c] }
  else st

/-- The function `strip_html` (lines 26-58). -/
def strip_html (html : Str) : Str :=
  ((List.range html.length).foldl (strip_html_step html)
    { in_tag := false, in_script := false, result := [] }).result

/-- The function `to_lower` (lines 60-65). -/
def to_lower (text : Str) : Str := text.map tolower

/-- The function `is_stop_word` (lines 67-69). -/
def is_stop_word (word : Str) : Bool := decide (STOP_WORDS.count word > 0)

/-- The local variables `tokens` and `current` of `tokenize`. -/
structure TokState where
  tokens : List Str
  current : Str
deriving DecidableEq, Repr

/-- One iteration of the range-for loop of `tokenize` (lines 78-89). -/
def tokenize_step (st : TokState) (c : Nat) : TokState :=
  if isalnum c then
    { tokens := st.tokens, current := st.current ++ [c] }
  else if !st.current.isEmpty then
    if !is_stop_word st.current then
      { tokens := st.tokens ++ [st.current], current := [] }
    else
      { tokens := st.tokens, current := [] }
  else st

/-- The function `tokenize` (lines 71-95). -/
def tokenize (html : Str) : List Str :=
  let text := to_lower (strip_html html)
  let st := text.foldl tokenize_step { tokens := [], current := [] }
  if !st.current.isEmpty && !is_stop_word st.current then
    st.tokens ++ [st.current]
  else st.tokens

/-! ## Suffix form of `strip_html` -/

/-- The value of `in_script` after the `<` branch (lines 34-48), in terms of the
bytes `rest` that follow the `<`. -/
def lt_in_script (rest : Str) (in_script : Bool) : Bool :=
  let s1 : Bool :=
    if 7 ≤ rest.length then
      if (rest.take 6).map tolower == SCRIPT || ((rest.take 6).map tolower).take 5 == STYLE
      then true else in_script
    else in_script
  if 2 ≤ rest.length && rest.headD 0 == 47 then
    if (((rest.drop 1).take 6).map tolower).take 6 == SCRIPT
        || (((rest.drop 1).take 6).map tolower).take 5 == STYLE then false
    else s1
  else s1

/-- The bytes `strip_html` appends to `result` while it scans the suffix `c :: rest`,
entered with the flags `t = in_tag` and `s = in_script`. -/
def strip_tail : Bool → Bool → Str → Str
  | _, _, [] => []
  | t, s, c :: rest =>
    if !t && c == 60 then strip_tail true (lt_in_script rest s) rest
    else if t && c == 62 then 32 :: strip_tail false s rest
    else if !t && !s then c :: strip_tail t s rest
    else strip_tail t s rest

/-! ## The tokenizer as the spec words it -/

/-- The maximal runs of ASCII alphanumeric bytes of `text`, left to right: the
non-empty pieces between the bytes that are not alphanumeric. -/
def alnum_runs (text : Str) : List Str :=
  (text.splitOnP (fun c => !isalnum c)).filter (fun r => !r.isEmpty)

/-- The pipeline of the spec: strip, lower, split into maximal alphanumeric runs,
drop the runs that are stop words. -/
def tokenize_spec (body : Str) : List Str :=
  (alnum_runs (to_lower (strip_html body))).filter (fun r => !is_stop_word r)

/-! ## The scan of `strip_html` as the spec words it -/

/-- The bytes of `s` begin, compared case-insensitively, with the lower-case `word`. -/
def begins_nocase (s word : Str) : Bool := (s.take word.length).map tolower == word

/-- The value of `in_script` after a `<` that is followed by the bytes `rest`, as the
spec words it: cleared by `/script` or `/style`, set by `script` or `style`. -/
def spec_in_script (rest : Str) (in_script : Bool) : Bool :=
  if rest.head? == some 47 &&
      (begins_nocase rest.tail SCRIPT || begins_nocase rest.tail STYLE) then false
  else if begins_nocase rest SCRIPT || begins_nocase rest STYLE then true
  else in_script

/-- The scan of the spec, taken literally: every `<` byte sets `in_tag` and updates
`in_script`; a `>` while `in_tag` clears `in_tag` and emits one space; any other byte
is emitted exactly when neither flag is set. -/
def spec_scan : Bool → Bool → Str → Str
  | _, _, [] => []
  | in_tag, in_script, c :: rest =>
    if c = 60 then spec_scan true (spec_in_script rest in_script) rest
    else if c = 62 ∧ in_tag = true then 32 :: spec_scan false in_script rest
    else if in_tag = false ∧ in_script = false then c :: spec_scan in_tag in_script rest
    else spec_scan in_tag in_script rest

/-- The scan of the spec with one change: only a `<` byte met while `in_tag` is clear
sets `in_tag` and updates `in_script`; a `<` met while `in_tag` is set is an
"other byte" (and so is not emitted). -/
def spec_scan_guarded : Bool → Bool → Str → Str
  | _, _, [] => []
  | in_tag, in_script, c :: rest =>
    if c = 60 ∧ in_tag = false then
      spec_scan_guarded true (spec_in_script rest in_script) rest
    else if c = 62 ∧ in_tag = true then 32 :: spec_scan_guarded false in_script rest
    else if in_tag = false ∧ in_script = false then
      c :: spec_scan_guarded in_tag in_script rest
    else spec_scan_guarded in_tag in_script rest

/-! ## crawl_service.cpp: the link extractor -/

/-- The call `std::isspace(c)` in the "C" locale, which is what `\s` matches. -/
def isspace (c : Nat) : Bool := c == 32 || (9 ≤ c && c ≤ 13)

/-- The bytes the bracket expression `["']` matches. -/
def is_quote (c : Nat) : Bool := c == 34 || c == 39

/-- One attempt to match `href\s*=\s*["']([^"']+)["']` with `std::regex::icase`
(line 91) at the start of `s`: the capture group 1 and the length of the match.
Every quantifier of the pattern is followed by an atom that matches none of the
bytes the quantifier matches, so the greedy match is the only match. -/
def match_href (s : Str) : Option (Str × Nat) :=
  if (s.take 4).map tolower == [104, 114, 101, 102] then
    match (s.drop 4).dropWhile isspace with
    | 61 :: s2 =>
      match s2.dropWhile isspace with
      | q :: s4 =>
        if is_quote q then
          let v := s4.takeWhile (fun c => !is_quote c)
          match v, s4.dropWhile (fun c => !is_quote c) with
          | _ :: _, _ :: s6 => some (v, s.length - s6.length)
          | _, _ => none
        else none
      | [] => none
    | _ => none
  else none

/-- The captures that the `std::sregex_iterator` loop (lines 92-103) visits: the
search moves one byte to the right after a failed attempt and resumes at the end of
the match after a successful one; `skip` counts the bytes of the last match that
are still ahead. -/
def href_scan : Nat → Str → List Str
  | _, [] => []
  | skip + 1, _ :: rest => href_scan skip rest
  | 0, c :: rest =>
    match match_href (c :: rest) with
    | some (v, len) => v :: href_scan (len - 1) rest
    | none => href_scan 0 rest

/-- The values `(*it)[1].str()` of all matches in `html`, in order. -/
def href_values (html : Str) : List Str := href_scan 0 html

/-- The search of `find` in the suffix `s` that starts at index `i`. -/
def find_at (pat : Str) : Str → Nat → Option Nat
  | [], i => if pat = [] then some i else none
  | c :: rest, i => if pat.isPrefixOf (c :: rest) then some i else find_at pat rest (i + 1)

/-- The call `s.find(pat, pos)`: the first index `≥ pos` where `pat` occurs in `s`;
`none` stands for `npos`. -/
def find (s pat : Str) (pos : Nat) : Option Nat :=
  if pos ≤ s.length then find_at pat (s.drop pos) pos else none

/-- The call `s.starts_with(p)`. -/
def starts_with (s p : Str) : Bool := p.isPrefixOf s

/-- The variable `base_domain` of `extract_links` (lines 95-100). -/
def base_domain_of (base_url : Str) : Str :=
  match find base_url [58, 47, 47] 0 with
  | some proto_end =>
    match find base_url [47] (proto_end + 3) with
    | some slash => substr base_url 0 slash
    | none => substr base_url 0 base_url.length
  | none => []

/-- The body of the loop over the matches (lines 103-112): `links` after the
iteration that handles the captured value `link`. -/
def extract_links_step (base_domain : Str) (links : List Str) (link : Str) : List Str :=
  if starts_with link [47, 47] then links ++ [[104, 116, 116, 112, 115, 58] ++ link]
  else if starts_with link [47] then links ++ [base_domain ++ link]
  else if !starts_with link [104, 116, 116, 112] then links
  else links ++ [link]

/-- The function `CrawlServiceImpl::extract_links` (lines 88-115). -/
def extract_links (html base_url : Str) : List Str :=
  (href_values html).foldl (extract_links_step (base_domain_of base_url)) []

/-! ## The link extractor as the spec words it -/

/-- The prefix of `base_url` up to but not including the first `/` after `://`, and
the whole of `base_url` when no `/` follows. -/
def authority_of : Str → Str
  | [] => []
  | c :: rest =>
    if [58, 47, 47].isPrefixOf (c :: rest) then
      [58, 47, 47] ++ (rest.drop 2).takeWhile (fun b => b != 47)
    else c :: authority_of rest

/-- The URL the spec gives for a captured value `v`, `none` when `v` is dropped. -/
def resolve_spec (P v : Str) : Option Str :=
  if [47, 47].isPrefixOf v then some (lit "https:" ++ v)
  else if [47].isPrefixOf v then some (P ++ v)
  else if (lit "http").isPrefixOf v then some v
  else none

/-! ## crawl_service.cpp: the master dispatcher -/

/-- The struct `CrawlResult` of crawl_service.h. -/
structure CrawlResult where
  doc_id : Nat
  url : Str
  tokens : List Str
  raw_text : Str
  success : Bool
  error : Str
  discovered_urls : List Str
deriving DecidableEq, Repr

/-- The message `CrawlRequest` of the wire schema. -/
structure CrawlRequest where
  url : Str
  doc_id : Nat
deriving DecidableEq, Repr

/-- The message `CrawlResponse` of the wire schema. -/
structure CrawlResponse where
  doc_id : Nat
  url : Str
  tokens : List Str
  raw_text : Str
  discovered_urls : List Str
  success : Bool
  error : Str
deriving DecidableEq, Repr

/-- A freshly constructed `CrawlResponse`: every field at its default value. -/
def CrawlResponse.fresh : CrawlResponse :=
  { doc_id := 0, url := [], tokens := [], raw_text := [], discovered_urls := [],
    success := false, error := [] }

/-- What `crawl` reads of a `grpc::Status`: `ok()` and `error_message()`. -/
structure Status where
  ok : Bool
  error_message : Str
deriving DecidableEq, Repr

/-- A call `stub->Crawl(&context, request, &response)` as the master sees it: the
status returned and the contents of `response` afterwards, for a given worker
address and request. The master does not constrain either. -/
abbrev CrawlRpc := Str → CrawlRequest → Status × CrawlResponse

namespace CrawlMaster

/-- The struct `CrawlMaster::Impl` (lines 148-155); a `WorkerChannel` is identified by
its address, and `next_worker` is a `size_t`. -/
structure Impl where
  workers : List Str
  next_worker : Nat
deriving DecidableEq, Repr

/-- What one call of `crawl` does: the result returned, the state left behind, and the
worker whose stub was called, as its index in `workers` and its address (`none`: no
RPC was made). -/
structure Outcome where
  result : CrawlResult
  impl : Impl
  dispatched : Option (Nat × Str)
deriving DecidableEq, Repr

/-- The method `CrawlMaster::crawl` (lines 165-199), for the behaviour `rpc` of the
transport during the call. -/
def crawl (rpc : CrawlRpc) (impl : Impl) (url : Str) (doc_id : Nat) : Outcome :=
  if impl.workers.isEmpty then
    { result :=
        { doc_id := doc_id, url := url, tokens := [], raw_text := [], success := false,
          error := lit "No workers available", discovered_urls := [] },
      impl := impl, dispatched := none }
  else
    let index := impl.next_worker % impl.workers.length
    let worker := impl.workers.getD index []
    let impl1 : Impl :=
      { workers := impl.workers, next_worker := (impl.next_worker + 1) % 2 ^ 64 }
    let request : CrawlRequest := { url := url, doc_id := doc_id }
    let (status, response) := rpc worker request
    let result : CrawlResult :=
      if status.ok && response.success then
        { doc_id := response.doc_id, url := response.url, tokens := response.tokens,
          raw_text := response.raw_text, success := true, error := [],
          discovered_urls := response.discovered_urls }
      else
        { doc_id := response.doc_id, url := response.url, tokens := [],
          raw_text := response.raw_text, success := false,
          error := if status.ok then response.error else status.error_message,
          discovered_urls := [] }
    { result := result, impl := impl1, dispatched := some (index, worker) }

/-- One `crawl` call of a sequence: its arguments and the behaviour of the transport
while it runs. -/
structure Call where
  url : Str
  doc_id : Nat
  rpc : CrawlRpc

/-- Sequential `crawl` calls on one master: the final state and the outcome of each
call, in order. -/
def run : Impl → List Call → Impl × List Outcome
  | impl, [] => (impl, [])
  | impl, c :: cs =>
    let o := crawl c.rpc impl c.url c.doc_id
    let r := run o.impl cs
    (r.1, o :: r.2)

/-- The `CrawlResult` that lines 184-198 build from the status the stub call returned
and the response it left behind. -/
def result_of (status : Status) (response : CrawlResponse) : CrawlResult :=
  if status.ok && response.success then
    { doc_id := response.doc_id, url := response.url, tokens := response.tokens,
      raw_text := response.raw_text, success := true, error := [],
      discovered_urls := response.discovered_urls }
  else
    { doc_id := response.doc_id, url := response.url, tokens := [],
      raw_text := response.raw_text, success := false,
      error := if status.ok then response.error else status.error_message,
      discovered_urls := [] }

/-- The outcome the round-robin rule gives the `j`-th call `c` of a sequence on a master
that holds `workers` and started at `next_worker = 0`: the RPC is made on
`workers[j mod n]`, the result is built from what comes back, and `next_worker` is
left at `j + 1`. -/
def outcome_at (workers : List Str) (j : Nat) (c : Call) : Outcome :=
  let worker := workers.getD (j % workers.length) []
  let r := c.rpc worker { url := c.url, doc_id := c.doc_id }
  { result := result_of r.1 r.2,
    impl := { workers := workers, next_worker := j + 1 },
    dispatched := some (j % workers.length, worker) }

/-- A transport in which every worker answers with its own address as `raw_text`, so
that the result of a call shows which worker the call reached. -/
def echo_rpc : CrawlRpc := fun worker request =>
  ({ ok := true, error_message := [] },
   { doc_id := request.doc_id, url := request.url, tokens := [], raw_text := worker,
     discovered_urls := [], success := true, error := [] })

end CrawlMaster

/-! ## crawl_service.cpp: the worker service -/

namespace CrawlServiceImpl

/-- The data members of `CrawlServiceImpl` (lines 68-69), both `uint32_t`. -/
structure State where
  pages_crawled_ : Nat
  pages_failed_ : Nat
deriving DecidableEq, Repr

/-- The message `StatusResponse` of the wire schema. -/
structure StatusResponse where
  pages_crawled : Nat
  pages_failed : Nat
deriving DecidableEq, Repr

/-- The value `grpc::Status::OK`. -/
def OK : Status := { ok := true, error_message := [] }

/-- The statements of the `try` block of `Crawl` (lines 27-47) at which a
`std::exception` can leave the block: the four calls that compute, and the `k`-th
call (counted from `0`) of `add_tokens` or of `add_discovered_urls`. -/
inductive ThrowAt where
  | fetch_url
  | tokenize
  | add_tokens (k : Nat)
  | strip_html
  | extract_links
  | add_discovered_urls (k : Nat)
deriving DecidableEq, Repr

/-- What the runtime decides during one `Crawl` call: `stack` is the number of
matched bytes for which the stack has room while the regex library searches (its
backtracking executor makes one nested call per matched byte and has no depth
limit), and `thrown` is the exception raised in the `try` block, if any, with the
statement that raises it and its `what()` text. -/
structure CallEnv where
  stack : Nat
  thrown : Option (ThrowAt × Str)
deriving DecidableEq, Repr

/-- The text of the exception that the statement `p` raises in `env`, if it does. -/
def throws (env : CallEnv) (p : ThrowAt) : Option Str :=
  match env.thrown with
  | some (q, what) => if q = p then some what else none
  | none => none

/-- The number of leading bytes of `s` that match the keyword `kw`, compared
case-insensitively. -/
def keyword_depth : Str → Str → Nat
  | c :: s, k :: kw => if tolower c == k then keyword_depth s kw + 1 else 0
  | _, _ => 0

/-- The number of bytes that one attempt to match the pattern of line 91 at the start
of `s` has matched when it succeeds or gives up: the depth that the recursion of the
library's executor reaches during the attempt. -/
def match_href_depth (s : Str) : Nat :=
  if keyword_depth s [104, 114, 101, 102] < 4 then keyword_depth s [104, 114, 101, 102]
  else
    let ws1 := ((s.drop 4).takeWhile isspace).length
    match (s.drop 4).dropWhile isspace with
    | 61 :: s2 =>
      let ws2 := (s2.takeWhile isspace).length
      match s2.dropWhile isspace with
      | q :: s4 =>
        if is_quote q then
          let v := (s4.takeWhile (fun c => !is_quote c)).length
          match s4.dropWhile (fun c => !is_quote c) with
          | _ :: _ => 4 + ws1 + 1 + ws2 + 1 + v + (if 1 ≤ v then 1 else 0)
          | [] => 4 + ws1 + 1 + ws2 + 1 + v
        else 4 + ws1 + 1 + ws2
      | [] => 4 + ws1 + 1 + ws2
    | _ => 4 + ws1

/-- Whether the `std::sregex_iterator` loop over `html` returns when the stack has
room for `stack` matched bytes: every attempt that `href_scan` makes stays within
that depth. -/
def href_search_fits (stack : Nat) : Nat → Str → Bool
  | _, [] => true
  | skip + 1, _ :: rest => href_search_fits stack skip rest
  | 0, c :: rest =>
    decide (match_href_depth (c :: rest) ≤ stack) &&
      match match_href (c :: rest) with
      | some (_, len) => href_search_fits stack (len - 1) rest
      | none => href_search_fits stack 0 rest

/-- The loop of lines 37-39: the response after it and, when the `k`-th `add_tokens`
call raises, the text of the exception; the first `k` tokens are then in the
response. -/
def add_tokens_loop (env : CallEnv) (tokens : List Str) (r : CrawlResponse) :
    CrawlResponse × Option Str :=
  match env.thrown with
  | some (ThrowAt.add_tokens k, what) =>
    if k < tokens.length then ({ r with tokens := r.tokens ++ tokens.take k }, some what)
    else ({ r with tokens := r.tokens ++ tokens }, none)
  | _ => ({ r with tokens := r.tokens ++ tokens }, none)

/-- The loop of lines 46-48, in the same way. -/
def add_discovered_urls_loop (env : CallEnv) (links : List Str) (r : CrawlResponse) :
    CrawlResponse × Option Str :=
  match env.thrown with
  | some (ThrowAt.add_discovered_urls k, what) =>
    if k < links.length then
      ({ r with discovered_urls := r.discovered_urls ++ links.take k }, some what)
    else ({ r with discovered_urls := r.discovered_urls ++ links }, none)
  | _ => ({ r with discovered_urls := r.discovered_urls ++ links }, none)

/-- How the `try` block of `Crawl` ends: at its last statement or at the `return` of
line 32, by an exception that the `catch` clause receives, or not at all. -/
inductive TryEnd where
  | finished (response : CrawlResponse)
  | caught (response : CrawlResponse) (what : Str)
  | no_return
deriving DecidableEq, Repr

/-- The `try` block of `Crawl` (lines 24-50), entered with the response `r0`, for a
call in which `fetch_url(request->url())` returns `html` unless it raises. An
exception of `extract_links` is raised before its search starts. -/
def try_block (env : CallEnv) (request : CrawlRequest) (html : Str) (r0 : CrawlResponse) :
    TryEnd :=
  match throws env ThrowAt.fetch_url with
  | some what => TryEnd.caught r0 what
  | none =>
    if html.isEmpty then
      TryEnd.finished { r0 with success := false, error := lit "Empty response" }
    else
      match throws env ThrowAt.tokenize with
      | some what => TryEnd.caught r0 what
      | none =>
        match (add_tokens_loop env (tokenize html) r0).2 with
        | some what => TryEnd.caught (add_tokens_loop env (tokenize html) r0).1 what
        | none =>
          let r1 := (add_tokens_loop env (tokenize html) r0).1
          match throws env ThrowAt.strip_html with
          | some what => TryEnd.caught r1 what
          | none =>
            let r2 : CrawlResponse := { r1 with raw_text := strip_html html }
            match throws env ThrowAt.extract_links with
            | some what => TryEnd.caught r2 what
            | none =>
              if href_search_fits env.stack 0 html then
                match (add_discovered_urls_loop env (extract_links html request.url) r2).2 with
                | some what =>
                  TryEnd.caught
                    (add_discovered_urls_loop env (extract_links html request.url) r2).1 what
                | none =>
                  TryEnd.finished
                    { (add_discovered_urls_loop env (extract_links html request.url) r2).1 with
                      success := true }
              else TryEnd.no_return

/-- The handler `CrawlServiceImpl::Crawl` (lines 18-57): the status returned, the
response message (fresh on entry) and the data members afterwards; `none` when the
call does not return because the regex search runs out of stack. -/
def Crawl (env : CallEnv) (st : State) (request : CrawlRequest) (html : Str) :
    Option (Status × CrawlResponse × State) :=
  let r0 : CrawlResponse :=
    { CrawlResponse.fresh with doc_id := request.doc_id, url := request.url }
  match try_block env request html r0 with
  | TryEnd.finished r => some (OK, r, st)
  | TryEnd.caught r what => some (OK, { r with success := false, error := what }, st)
  | TryEnd.no_return => none

/-- The handler `CrawlServiceImpl::ReportStatus` (lines 59-65). -/
def ReportStatus (st : State) : Status × StatusResponse × State :=
  (OK, { pages_crawled := st.pages_crawled_, pages_failed := st.pages_failed_ }, st)

end CrawlServiceImpl

/-! ## Tags inside a script body -/

/-- Whether a scan of `S` that starts with `in_tag = t` ends inside a tag: a `<` met
outside a tag opens one, a `>` met inside a tag closes it. -/
def ends_in_tag : Bool → Str → Bool
  | t, [] => t
  | t, c :: rest =>
    if !t && c == 60 then ends_in_tag true rest
    else if t && c == 62 then ends_in_tag false rest
    else ends_in_tag t rest

/-! ## An href attribute as the spec words it -/

/-- An occurrence in `body` of the keyword `href` in any letter case, optional
whitespace, `=`, optional whitespace, and the non-empty value `v`, free of quote
characters, between the opening quote `q1` and the closing quote `q2`. -/
def href_occurrence (body v : Str) (q1 q2 : Nat) : Prop :=
  ∃ pre kw ws1 ws2 post : Str,
    body = pre ++ kw ++ ws1 ++ [61] ++ ws2 ++ [q1] ++ v ++ [q2] ++ post ∧
    to_lower kw = lit "href" ∧
    (∀ c ∈ ws1, isspace c = true) ∧ (∀ c ∈ ws2, isspace c = true) ∧
    is_quote q1 = true ∧ is_quote q2 = true ∧
    v ≠ [] ∧ ∀ c ∈ v, is_quote c = false

/-! # Theorems -/

/-! ## The byte constants -/

theorem SCRIPT_eq : SCRIPT = lit "script" := by decide

theorem STYLE_eq : STYLE = lit "style" := by decide

theorem match_href_keyword : lit "href" = [104, 114, 101, 102] := by decide

theorem extract_links_constants :
    lit "://" = [58, 47, 47] ∧ lit "/" = [47] ∧ lit "//" = [47, 47] ∧
    lit "http" = [104, 116, 116, 112] ∧ lit "https:" = [104, 116, 116, 112, 115, 58] ∧
    lit "<" = [60] ∧ lit ">" = [62] ∧ lit " " = [32] ∧ lit "=" = [61] ∧
    lit "\"" = [34] ∧ lit "'" = [39] := by decide

/-! ## `strip_html` in suffix form -/

theorem getD_append_add (pre suf : Str) (k : Nat) :
    (pre ++ suf).getD (pre.length + k) 0 = suf.getD k 0 := by
  induction pre with
  | nil => simp
  | cons a pre ih =>
    simpa [Nat.add_right_comm _ 1 k] using ih

theorem drop_append_add (pre suf : Str) (k : Nat) :
    (pre ++ suf).drop (pre.length + k) = suf.drop k := by
  induction pre with
  | nil => simp
  | cons a pre ih =>
    simp [Nat.add_right_comm _ 1 k]

theorem strip_html_step_append (pre : Str) (c : Nat) (rest : Str) (st : StripState) :
    strip_html_step (pre ++ c :: rest) st pre.length =
      if !st.in_tag && c == 60 then
        { in_tag := true, in_script := lt_in_script rest st.in_script, result := st.result }
      else if st.in_tag && c == 62 then
        { in_tag := false, in_script := st.in_script, result := st.result ++ [32] }
      else if !st.in_tag && !st.in_script then
        { in_tag := st.in_tag, in_script := st.in_script, result := st.result ++ [c] }
      else st := by
  have h1 : (pre ++ c :: rest).getD pre.length 0 = c := by
    simpa using getD_append_add pre (c :: rest) 0
  have h2 : (pre ++ c :: rest).drop (pre.length + 1) = rest := by
    simp
  have h3 : (pre ++ c :: rest).drop (pre.length + 2) = rest.drop 1 := by
    simp
  have h4 : (pre ++ c :: rest).getD (pre.length + 1) 0 = rest.headD 0 := by
    rw [getD_append_add]
    cases rest <;> simp
  have h5 : (pre.length + 7 < (pre ++ c :: rest).length) = (7 ≤ rest.length) := by
    simp; omega
  have h6 : (pre.length + 2 < (pre ++ c :: rest).length) = (2 ≤ rest.length) := by
    simp; omega
  simp only [strip_html_step, substr, h1, h2, h3, h4, h5, h6, lt_in_script, List.drop_zero]

theorem strip_html_fold (suf : Str) : ∀ (pre : Str) (st : StripState),
    ((List.range' pre.length suf.length).foldl (strip_html_step (pre ++ suf)) st).result =
      st.result ++ strip_tail st.in_tag st.in_script suf := by
  induction suf with
  | nil => intro pre st; simp [strip_tail]
  | cons c rest ih =>
    intro pre st
    have hih := ih (pre ++ [c])
    simp only [List.append_assoc, List.singleton_append, List.length_append,
      List.length_singleton] at hih
    simp only [List.length_cons, List.range'_succ, List.foldl_cons]
    rw [hih, strip_html_step_append]
    rcases st with ⟨t, s, r⟩
    by_cases h1 : (!t && c == 60) = true
    · simp only [h1, if_true, strip_tail]
    · by_cases h2 : (t && c == 62) = true
      · simp [h1, h2, strip_tail]
      · by_cases h3 : (!t && !s) = true
        · simp [h1, h2, h3, strip_tail]
        · simp [h1, h2, h3, strip_tail]

/-- The function `strip_html` in suffix form. -/
theorem strip_html_eq_tail (html : Str) : strip_html html = strip_tail false false html := by
  have h := strip_html_fold html [] { in_tag := false, in_script := false, result := [] }
  simpa [strip_html, List.range_eq_range'] using h

/-! ## The tokenizer loop -/

theorem is_stop_word_iff (w : Str) : is_stop_word w = true ↔ w ∈ STOP_WORDS := by
  simp [is_stop_word, List.count_pos_iff]

theorem tokenize_fold (l : Str) : ∀ st : TokState,
    (let st1 := l.foldl tokenize_step st
     if !st1.current.isEmpty && !is_stop_word st1.current then st1.tokens ++ [st1.current]
     else st1.tokens) =
    st.tokens ++ ((List.splitOnP.go (fun c => !isalnum c) l st.current.reverse).filter
      (fun r => !r.isEmpty)).filter (fun r => !is_stop_word r) := by
  induction l with
  | nil =>
    intro st
    by_cases h1 : st.current.isEmpty = true <;> by_cases h2 : is_stop_word st.current = true <;>
      simp [List.splitOnP.go, List.filter_cons, h1, h2]
  | cons c l ih =>
    intro st
    simp only [List.foldl_cons]
    rw [ih]
    by_cases hc : isalnum c = true
    · simp [tokenize_step, hc, List.splitOnP.go]
    · rcases st with ⟨toks, cur⟩
      cases cur with
      | nil => simp [tokenize_step, hc, List.splitOnP.go, List.filter_cons]
      | cons x xs =>
        by_cases h2 : is_stop_word (x :: xs) = true <;>
          simp [tokenize_step, hc, List.splitOnP.go, List.filter_cons, h2]

theorem tokenize_eq_spec (body : Str) : tokenize body = tokenize_spec body := by
  have h := tokenize_fold (to_lower (strip_html body)) { tokens := [], current := [] }
  simpa [tokenize, tokenize_spec, alnum_runs, List.splitOnP] using h

theorem splitOnP_go_mem (p : Nat → Bool) (l : Str) : ∀ (acc r : Str),
    r ∈ List.splitOnP.go p l acc → ∀ c ∈ r, c ∈ acc ∨ (c ∈ l ∧ p c = false) := by
  induction l with
  | nil =>
    intro acc r hr c hc
    simp [List.splitOnP.go] at hr
    subst hr
    left; simpa using hc
  | cons a l ih =>
    intro acc r hr c hc
    by_cases ha : p a = true
    · simp only [List.splitOnP.go, ha, if_true, List.mem_cons] at hr
      rcases hr with hr | hr
      · subst hr; left; simpa using hc
      · rcases ih [] r hr c hc with h | h
        · simp at h
        · right; exact ⟨List.mem_cons_of_mem _ h.1, h.2⟩
    · simp only [List.splitOnP.go, ha] at hr
      rcases ih (a :: acc) r hr c hc with h | h
      · rcases List.mem_cons.1 h with h | h
        · right; subst h; exact ⟨List.mem_cons_self _ _, by simpa using ha⟩
        · left; exact h
      · right; exact ⟨List.mem_cons_of_mem _ h.1, h.2⟩

theorem isalnum_tolower {c : Nat} (h : isalnum (tolower c) = true) :
    (97 ≤ tolower c ∧ tolower c ≤ 122) ∨ (48 ≤ tolower c ∧ tolower c ≤ 57) := by
  unfold tolower at h ⊢
  unfold isalnum at h
  split_ifs at h ⊢ with h1
  · omega
  · simp only [Bool.or_eq_true, Bool.and_eq_true, decide_eq_true_eq] at h
    omega

/-! ## Claims on `tokenize` -/

/-- C1: for every body `B`, every element of `tokenize B` is non-empty, consists only
of bytes in `a`..`z` and `0`..`9`, and is not a member of the stop-word set. -/
theorem C1_tokens_wellformed (B t : Str) (ht : t ∈ tokenize B) :
    t ≠ [] ∧ (∀ c ∈ t, (97 ≤ c ∧ c ≤ 122) ∨ (48 ≤ c ∧ c ≤ 57)) ∧ t ∉ STOP_WORDS := by
  rw [tokenize_eq_spec] at ht
  simp only [tokenize_spec, alnum_runs, List.mem_filter, Bool.not_eq_true',
    List.isEmpty_eq_false] at ht
  obtain ⟨⟨hrun, hne⟩, hstop⟩ := ht
  refine ⟨hne, ?_, ?_⟩
  · intro c hc
    rcases splitOnP_go_mem _ _ [] t hrun c hc with h | ⟨hmem, hp⟩
    · simp at h
    · obtain ⟨c0, -, rfl⟩ := List.mem_map.1 hmem
      exact isalnum_tolower (by simpa using hp)
  · intro hmem
    rw [← is_stop_word_iff] at hmem
    simp [hmem] at hstop

/-- Witness of C1 on the body `<p>Hello, the World</p>` and its token `hello`. -/
theorem C1_tokens_wellformed_witness :
    lit "hello" ∈ tokenize (lit "<p>Hello, the World</p>") ∧
    (lit "hello" ≠ [] ∧ (∀ c ∈ lit "hello", (97 ≤ c ∧ c ≤ 122) ∨ (48 ≤ c ∧ c ≤ 57)) ∧
      lit "hello" ∉ STOP_WORDS) :=
  ⟨by decide,
    C1_tokens_wellformed (lit "<p>Hello, the World</p>") (lit "hello") (by decide)⟩

/-- C2: for every body `B`, `tokenize B` is the list of the maximal runs of ASCII
alphanumeric bytes of `to_lower (strip_html B)`, in left-to-right order, without the
runs that are stop words; no token is empty; and the body
`<p>Hello, WORLD! The quick brown fox.</p>` gives `hello, world, quick, brown, fox`. -/
theorem C2_tokenize_pipeline :
    (∀ B : Str, tokenize B =
      ((to_lower (strip_html B)).splitOnP (fun c => !isalnum c)
        |>.filter (fun r => !r.isEmpty)).filter (fun r => !is_stop_word r)) ∧
    (∀ B : Str, (tokenize B).all (fun t => !t.isEmpty) = true) ∧
    tokenize (lit "<p>Hello, WORLD! The quick brown fox.</p>") =
      [lit "hello", lit "world", lit "quick", lit "brown", lit "fox"] := by
  refine ⟨fun B => ?_, fun B => ?_, by decide⟩
  · rw [tokenize_eq_spec]; rfl
  · rw [tokenize_eq_spec]
    simp only [tokenize_spec, alnum_runs, List.all_eq_true, List.mem_filter]
    intro t ht
    exact ht.1.2

/-! ## `strip_html` against the scan of the spec -/

theorem begins_nocase_length {l w : Str} (h : begins_nocase l w = true) :
    w.length ≤ l.length := by
  simp only [begins_nocase, beq_iff_eq] at h
  have h1 := congrArg List.length h
  simp only [List.length_map, List.length_take] at h1
  omega

theorem lt_in_script_eq (rest : Str) (s : Bool) :
    lt_in_script rest s =
      if rest.head? == some 47 &&
          (begins_nocase rest.tail SCRIPT || begins_nocase rest.tail STYLE) then false
      else if decide (7 ≤ rest.length) &&
          (begins_nocase rest SCRIPT || begins_nocase rest STYLE) then true
      else s := by
  have h5 : ∀ l : Str, ((l.take 6).map tolower).take 5 = (l.take 5).map tolower := by
    intro l; rw [← List.map_take, List.take_take]; rfl
  have h6 : ∀ l : Str, ((l.take 6).map tolower).take 6 = (l.take 6).map tolower := by
    intro l; rw [← List.map_take, List.take_take]; rfl
  have e1 : ∀ l : Str, ((l.take 6).map tolower == SCRIPT) = begins_nocase l SCRIPT :=
    fun l => rfl
  have e2 : ∀ l : Str, ((l.take 5).map tolower == STYLE) = begins_nocase l STYLE :=
    fun l => rfl
  have hd : (rest.headD 0 == 47) = (rest.head? == some 47) := by cases rest <;> simp
  have hlen : (begins_nocase rest.tail SCRIPT || begins_nocase rest.tail STYLE) = true →
      decide (2 ≤ rest.length) = true := by
    intro h
    have h1 : 5 ≤ rest.tail.length := by
      rcases Bool.or_eq_true_iff.1 h with h | h
      · have h6 : 6 ≤ rest.tail.length := begins_nocase_length h
        omega
      · exact begins_nocase_length h
    simp only [List.length_tail] at h1
    simp; omega
  simp only [lt_in_script, h5, h6, e1, e2, List.drop_one, hd]
  generalize (begins_nocase rest.tail SCRIPT || begins_nocase rest.tail STYLE) = C at hlen
  generalize (begins_nocase rest SCRIPT || begins_nocase rest STYLE) = O
  generalize (rest.head? == some 47) = H
  by_cases h7 : 7 ≤ rest.length <;> by_cases h2 : 2 ≤ rest.length <;>
    cases C <;> cases O <;> cases H <;> simp_all

theorem spec_scan_guarded_in_tag (l : Str) : ∀ s s0 : Bool, 62 ∉ l.dropLast →
    spec_scan_guarded true s l = spec_scan_guarded true s0 l := by
  induction l with
  | nil => intro s s0 _; simp [spec_scan_guarded]
  | cons c rest ih =>
    intro s s0 h
    cases rest with
    | nil => simp [spec_scan_guarded]
    | cons d r =>
      simp only [List.dropLast_cons₂, List.mem_cons, not_or] at h
      have hc : ¬ c = 62 := fun e => h.1 e.symm
      have e : ∀ x : Bool, spec_scan_guarded true x (c :: d :: r) =
          spec_scan_guarded true x (d :: r) := by
        intro x
        rw [spec_scan_guarded]
        simp [hc]
      rw [e, e]
      exact ih s s0 h.2

theorem tolower_62 {c : Nat} (h : c = 62) : tolower c = 62 := by subst h; decide

theorem short_open_no_gt (rest : Str) (hlen : rest.length < 7)
    (h : (begins_nocase rest SCRIPT || begins_nocase rest STYLE) = true) :
    62 ∉ rest.dropLast := by
  have h5 : 5 ≤ rest.length := by
    rcases Bool.or_eq_true_iff.1 h with h | h
    · have h6 : 6 ≤ rest.length := begins_nocase_length h
      omega
    · exact begins_nocase_length h
  rcases rest with _ | ⟨a, _ | ⟨b, _ | ⟨c, _ | ⟨d, _ | ⟨e, _ | ⟨f, _ | ⟨g, r⟩⟩⟩⟩⟩⟩⟩ <;>
    simp only [List.length_cons, List.length_nil] at h5 hlen <;> try omega
  · simp only [begins_nocase, SCRIPT, STYLE, List.length_cons, List.length_nil, List.take,
      List.map, Bool.or_eq_true, beq_iff_eq, List.cons.injEq] at h
    intro hm
    simp only [List.dropLast, List.mem_cons, List.mem_nil_iff, or_false] at hm
    rcases hm with hm | hm | hm | hm <;> have := tolower_62 hm.symm <;> omega
  · simp only [begins_nocase, SCRIPT, STYLE, List.length_cons, List.length_nil, List.take,
      List.map, Bool.or_eq_true, beq_iff_eq, List.cons.injEq] at h
    intro hm
    simp only [List.dropLast, List.mem_cons, List.mem_nil_iff, or_false] at hm
    rcases hm with hm | hm | hm | hm | hm <;> have := tolower_62 hm.symm <;> omega

theorem strip_tail_eq_spec (l : Str) : ∀ t s : Bool,
    strip_tail t s l = spec_scan_guarded t s l := by
  induction l with
  | nil => intro t s; simp [strip_tail, spec_scan_guarded]
  | cons c rest ih =>
    intro t s
    rw [strip_tail, spec_scan_guarded]
    by_cases h1 : c = 60 ∧ t = false
    · obtain ⟨rfl, rfl⟩ := h1
      simp only [Bool.not_false, beq_self_eq_true, Bool.and_self, if_true, and_self]
      rw [ih, lt_in_script_eq]
      by_cases h7 : 7 ≤ rest.length
      · simp [h7, spec_in_script]
      · by_cases ho : (begins_nocase rest SCRIPT || begins_nocase rest STYLE) = true
        · exact spec_scan_guarded_in_tag rest _ _ (short_open_no_gt rest (by omega) ho)
        · simp only [Bool.not_eq_true] at ho
          simp [spec_in_script, ho]
    · have h1' : (!t && c == 60) = false := by
        cases t <;> simp_all
      simp only [h1', h1, if_false, Bool.false_eq_true]
      by_cases h2 : c = 62 ∧ t = true
      · obtain ⟨rfl, rfl⟩ := h2
        simp [ih]
      · have h2' : (t && c == 62) = false := by
          cases t <;> simp_all
        simp only [h2', h2, if_false, Bool.false_eq_true]
        cases t <;> cases s <;> simp [ih]

theorem strip_tail_no_lt (l : Str) (h : 60 ∉ l) : strip_tail false false l = l := by
  induction l with
  | nil => simp [strip_tail]
  | cons c rest ih =>
    simp only [List.mem_cons, not_or] at h
    have hc : ¬ c = 60 := fun e => h.1 e.symm
    rw [strip_tail]
    simp [hc, ih h.2]

/-! ## Claims on `strip_html` -/

/-- C3 (as stated, refuted): on the body `<a <script x>bar` the source returns ` bar`,
while the scan that handles every `<` byte returns a single space, because the
second `<`, met inside a tag, would set `in_script`. -/
theorem C3_every_lt_counterexample :
    strip_html (lit "<a <script x>bar") = lit " bar" ∧
    spec_scan false false (lit "<a <script x>bar") = lit " " ∧
    strip_html (lit "<a <script x>bar") ≠ spec_scan false false (lit "<a <script x>bar") := by
  decide

/-- C3 (amended): for every body `B`, `strip_html B` is the output of the scan of the
spec in which only a `<` byte met while `in_tag` is clear sets `in_tag` and updates
`in_script`; a `<` met while `in_tag` is set changes no flag and is not emitted. -/
theorem C3_strip_html_scan (B : Str) : strip_html B = spec_scan_guarded false false B := by
  rw [strip_html_eq_tail, strip_tail_eq_spec]

/-- C4: a body that contains no `<` byte passes through `strip_html` unchanged. -/
theorem C4_strip_html_no_lt (B : Str) (h : 60 ∉ B) : strip_html B = B := by
  rw [strip_html_eq_tail, strip_tail_no_lt B h]

/-- Witness of C4 on the body `a > B`, which holds a `>` and an upper-case letter. -/
theorem C4_strip_html_no_lt_witness :
    60 ∉ lit "a > B" ∧ strip_html (lit "a > B") = lit "a > B" :=
  ⟨by decide, C4_strip_html_no_lt (lit "a > B") (by decide)⟩

/-! ## The link extractor -/

theorem find_at_shift (pat s : Str) : ∀ i k : Nat,
    find_at pat s (i + k) = (find_at pat s i).map (· + k) := by
  induction s with
  | nil => intro i k; simp only [find_at]; split <;> simp
  | cons c rest ih =>
    intro i k
    simp only [find_at]
    split
    · simp
    · rw [Nat.add_right_comm, ih]

theorem find_at_bound (pat s : Str) : ∀ i k : Nat, find_at pat s i = some k →
    i ≤ k ∧ k + pat.length ≤ i + s.length := by
  induction s with
  | nil =>
    intro i k h
    simp only [find_at] at h
    split at h
    · simp_all
    · simp at h
  | cons c rest ih =>
    intro i k h
    simp only [find_at] at h
    split at h
    · rename_i hp
      have hl := (List.isPrefixOf_iff_prefix.1 hp).length_le
      simp only [Option.some.injEq] at h
      subst h
      exact ⟨le_rfl, by omega⟩
    · have := ih _ _ h
      simp only [List.length_cons]
      omega

theorem find_at_of_infix (pat s : Str) (h : pat <:+: s) (i : Nat) :
    ∃ k, find_at pat s i = some k := by
  induction s generalizing i with
  | nil =>
    have : pat = [] := List.eq_nil_of_infix_nil h
    simp [find_at, this]
  | cons c rest ih =>
    simp only [find_at]
    split
    · exact ⟨i, rfl⟩
    · rename_i hp
      rcases List.infix_cons_iff.1 h with h1 | h1
      · exact absurd (List.isPrefixOf_iff_prefix.2 h1) hp
      · exact ih h1 _

theorem find_at_slash (l : Str) (i : Nat) :
    find_at [47] l i =
      if 47 ∈ l then some (i + (l.takeWhile (fun b => b != 47)).length) else none := by
  induction l generalizing i with
  | nil => simp [find_at]
  | cons c rest ih =>
    simp only [find_at]
    by_cases hc : c = 47
    · subst hc
      simp [List.isPrefixOf]
    · have h1 : ¬ (47 = c) := fun e => hc e.symm
      simp only [List.isPrefixOf, hc, h1, beq_iff_eq, Bool.false_and, Bool.false_eq_true, if_false,
        List.mem_cons, false_or, ih, List.takeWhile_cons, bne_iff_ne, ne_eq, not_false_eq_true,
        decide_True, if_true, List.length_cons]
      have h2 : (47 == c && true) = false := by simpa using h1
      rw [h2]
      simp only [Bool.false_eq_true, if_false]
      split
      · simp only [Option.some.injEq]; omega
      · rfl

theorem base_domain_of_sep (l : Str) :
    base_domain_of (58 :: 47 :: 47 :: l) = [58, 47, 47] ++ l.takeWhile (fun b => b != 47) := by
  have h1 : find (58 :: 47 :: 47 :: l) [58, 47, 47] 0 = some 0 := by
    simp [find, find_at, List.isPrefixOf]
  have h2 : find (58 :: 47 :: 47 :: l) [47] (0 + 3) = find_at [47] l 3 := by
    simp [find]
  simp only [base_domain_of, h1, h2, find_at_slash]
  by_cases h : 47 ∈ l
  · simp only [h, if_true, substr, List.drop_zero]
    rw [show 3 + (l.takeWhile (fun b => b != 47)).length =
      (l.takeWhile (fun b => b != 47)).length + 3 by omega]
    simp only [List.take_succ_cons, List.cons_append, List.nil_append, List.cons.injEq, true_and]
    have h3 := List.takeWhile_prefix (fun b => b != 47) (l := l)
    exact List.prefix_iff_eq_take.1 h3 |>.symm
  · simp only [h, if_false, substr, List.drop_zero, List.take_length]
    have h3 : l.takeWhile (fun b => b != 47) = l := by
      rw [List.takeWhile_eq_self_iff]
      intro x hx
      have : x ≠ 47 := fun e => h (e ▸ hx)
      simpa using this
    rw [h3]; rfl

theorem base_domain_of_cons (c : Nat) (rest : Str)
    (hp : [58, 47, 47].isPrefixOf (c :: rest) = false) (hin : [58, 47, 47] <:+: rest) :
    base_domain_of (c :: rest) = c :: base_domain_of rest := by
  obtain ⟨pe, hpe⟩ := find_at_of_infix _ _ hin 0
  have hb := find_at_bound _ _ _ _ hpe
  simp only [List.length_cons, List.length_nil, Nat.zero_add] at hb
  have h1 : find (c :: rest) [58, 47, 47] 0 = some (pe + 1) := by
    have := find_at_shift [58, 47, 47] rest 0 1
    simp only [Nat.zero_add] at this
    simp [find, find_at, hp, this, hpe]
  have h2 : find rest [58, 47, 47] 0 = some pe := by
    simp [find, hpe]
  have h3 : find (c :: rest) [47] (pe + 1 + 3) =
      (find rest [47] (pe + 3)).map (· + 1) := by
    have hg1 : pe + 1 + 3 ≤ (c :: rest).length := by simp only [List.length_cons]; omega
    have hg2 : pe + 3 ≤ rest.length := by omega
    simp only [find, hg1, hg2, if_true]
    rw [show pe + 1 + 3 = (pe + 3) + 1 by omega, List.drop_succ_cons, find_at_shift]
  simp only [base_domain_of, h1, h2, h3]
  cases find rest [47] (pe + 3) with
  | none => simp [substr]
  | some slash => simp [substr]

theorem base_domain_eq_authority (base : Str) (h : [58, 47, 47] <:+: base) :
    base_domain_of base = authority_of base := by
  induction base with
  | nil => simp at h
  | cons c rest ih =>
    by_cases hp : [58, 47, 47].isPrefixOf (c :: rest) = true
    · obtain ⟨l, hl⟩ := List.isPrefixOf_iff_prefix.1 hp
      simp only [List.cons_append, List.nil_append] at hl
      rw [authority_of, if_pos hp, ← hl, base_domain_of_sep]
      cases hl
      simp
    · simp only [Bool.not_eq_true] at hp
      have hin : [58, 47, 47] <:+: rest := by
        rcases List.infix_cons_iff.1 h with h1 | h1
        · rw [List.isPrefixOf_iff_prefix.2 h1] at hp; simp at hp
        · exact h1
      rw [base_domain_of_cons c rest hp hin, authority_of, hp, ih hin]
      simp

theorem extract_links_step_eq (bd : Str) (acc : List Str) (v : Str) :
    extract_links_step bd acc v = acc ++ (resolve_spec bd v).toList := by
  have e1 : lit "https:" = [104, 116, 116, 112, 115, 58] := by decide
  have e2 : lit "http" = [104, 116, 116, 112] := by decide
  simp only [extract_links_step, resolve_spec, starts_with, e1, e2]
  by_cases h1 : [47, 47].isPrefixOf v = true
  · simp [h1]
  · by_cases h2 : [47].isPrefixOf v = true
    · simp [h1, h2]
    · by_cases h3 : [104, 116, 116, 112].isPrefixOf v = true
      · simp [h1, h2, h3]
      · simp [h1, h2, h3]

theorem extract_links_fold (bd : Str) (l : List Str) : ∀ acc : List Str,
    l.foldl (extract_links_step bd) acc = acc ++ l.filterMap (resolve_spec bd) := by
  induction l with
  | nil => intro acc; simp
  | cons v l ih =>
    intro acc
    rw [List.foldl_cons, ih, extract_links_step_eq, List.filterMap_cons]
    cases resolve_spec bd v <;> simp

theorem extract_links_eq_filterMap (body base_url : Str) :
    extract_links body base_url =
      (href_values body).filterMap (resolve_spec (base_domain_of base_url)) := by
  simp [extract_links, extract_links_fold]

theorem base_domain_of_http (r : Str) :
    base_domain_of (lit "http://" ++ r) = lit "http://" ++ r.takeWhile (fun b => b != 47) := by
  have e : lit "http://" = [104, 116, 116, 112, 58, 47, 47] := by decide
  rw [e, base_domain_eq_authority _ ⟨[104, 116, 116, 112], r, by simp⟩]
  simp [authority_of, List.isPrefixOf]

theorem base_domain_of_https (r : Str) :
    base_domain_of (lit "https://" ++ r) = lit "https://" ++ r.takeWhile (fun b => b != 47) := by
  have e : lit "https://" = [104, 116, 116, 112, 115, 58, 47, 47] := by decide
  rw [e, base_domain_eq_authority _ ⟨[104, 116, 116, 112, 115], r, by simp⟩]
  simp [authority_of, List.isPrefixOf]

/-! ## Claims on `extract_links` -/

/-- C5: for every body and every `base_url` that contains `://`, `extract_links` maps
the captured href values, in order and keeping duplicates: a value that begins with
`//` gets `https:` in front, else a value that begins with `/` gets the prefix of
`base_url` up to the first `/` after `://` in front, else a value that begins with
`http` is kept, and any other value is dropped. -/
theorem C5_extract_links_resolution (body base_url : Str) (h : lit "://" <:+: base_url) :
    extract_links body base_url =
      (href_values body).filterMap (resolve_spec (authority_of base_url)) := by
  have e : lit "://" = [58, 47, 47] := by decide
  rw [e] at h
  rw [extract_links_eq_filterMap, base_domain_eq_authority base_url h]

/-- Witness of C5: the link-resolution scenario of the spec, with base
`https://example.com/index.html`, yields the three expected URLs. -/
theorem C5_extract_links_resolution_witness :
    lit "://" <:+: lit "https://example.com/index.html" ∧
    extract_links
        (lit ("<a href=\"/about\">a</a><a href=\"//cdn.x/y\">b</a>" ++
          "<a href=\"https://z/p\">c</a><a href=\"mailto:x@y\">d</a>"))
        (lit "https://example.com/index.html") =
      (href_values
        (lit ("<a href=\"/about\">a</a><a href=\"//cdn.x/y\">b</a>" ++
          "<a href=\"https://z/p\">c</a><a href=\"mailto:x@y\">d</a>"))).filterMap
        (resolve_spec (authority_of (lit "https://example.com/index.html"))) ∧
    extract_links
        (lit ("<a href=\"/about\">a</a><a href=\"//cdn.x/y\">b</a>" ++
          "<a href=\"https://z/p\">c</a><a href=\"mailto:x@y\">d</a>"))
        (lit "https://example.com/index.html") =
      [lit "https://example.com/about", lit "https://cdn.x/y", lit "https://z/p"] :=
  ⟨⟨lit "https", lit "example.com/index.html", by decide⟩,
    C5_extract_links_resolution _ (lit "https://example.com/index.html")
      ⟨lit "https", lit "example.com/index.html", by decide⟩,
    by decide⟩

/-- C6 (as stated, refuted): with base `http://a`, the body `<a href="httpx">` yields
the URL `httpx`, which begins with neither `http://` nor `https://`. -/
theorem C6_http_prefix_counterexample :
    starts_with (lit "http://a") (lit "http://") = true ∧
    extract_links (lit "<a href=\"httpx\">") (lit "http://a") = [lit "httpx"] ∧
    starts_with (lit "httpx") (lit "http://") = false ∧
    starts_with (lit "httpx") (lit "https://") = false := by
  decide

/-- C6 (amended): for every body and every `base_url` that begins with `http://` or
`https://`, every element of `extract_links body base_url` begins with `http://` or
`https://`, or else is a captured href value that begins with `http` and was kept
unchanged. -/
theorem C6_extract_links_http (body base_url u : Str)
    (hb : starts_with base_url (lit "http://") = true ∨
      starts_with base_url (lit "https://") = true)
    (hu : u ∈ extract_links body base_url) :
    (starts_with u (lit "http://") = true ∨ starts_with u (lit "https://") = true) ∨
    (u ∈ href_values body ∧ starts_with u (lit "http") = true) := by
  have e1 : lit "https:" = [104, 116, 116, 112, 115, 58] := by decide
  have e2 : lit "http" = [104, 116, 116, 112] := by decide
  have e3 : lit "http://" = [104, 116, 116, 112, 58, 47, 47] := by decide
  have e4 : lit "https://" = [104, 116, 116, 112, 115, 58, 47, 47] := by decide
  rw [extract_links_eq_filterMap] at hu
  obtain ⟨v, hv, hres⟩ := List.mem_filterMap.1 hu
  simp only [resolve_spec] at hres
  split_ifs at hres with h1 h2 h3
  · left; right
    obtain ⟨w, rfl⟩ := List.isPrefixOf_iff_prefix.1 h1
    simp only [Option.some.injEq] at hres
    subst hres
    simp [starts_with, e1, e4, List.isPrefixOf]
  · left
    simp only [Option.some.injEq] at hres
    subst hres
    rcases hb with hb | hb
    · obtain ⟨r, rfl⟩ := List.isPrefixOf_iff_prefix.1 hb
      left
      rw [base_domain_of_http]
      simp [starts_with, e3, List.isPrefixOf]
    · obtain ⟨r, rfl⟩ := List.isPrefixOf_iff_prefix.1 hb
      right
      rw [base_domain_of_https]
      simp [starts_with, e4, List.isPrefixOf]
  · right
    simp only [Option.some.injEq] at hres
    subst hres
    exact ⟨hv, h3⟩

/-- Witness of C6 (amended): base `http://a` and a body with one relative link and one
link whose value is `httpx`. -/
theorem C6_extract_links_http_witness :
    (starts_with (lit "http://a") (lit "http://") = true ∨
      starts_with (lit "http://a") (lit "https://") = true) ∧
    lit "httpx" ∈ extract_links (lit "<a href='/p'><a href=\"httpx\">") (lit "http://a") ∧
    ((starts_with (lit "httpx") (lit "http://") = true ∨
        starts_with (lit "httpx") (lit "https://") = true) ∨
      (lit "httpx" ∈ href_values (lit "<a href='/p'><a href=\"httpx\">") ∧
        starts_with (lit "httpx") (lit "http") = true)) :=
  ⟨by decide, by decide,
    C6_extract_links_http (lit "<a href='/p'><a href=\"httpx\">") (lit "http://a")
      (lit "httpx") (by decide) (by decide)⟩

/-! ## The master dispatcher -/

namespace CrawlMaster

theorem crawl_dispatched (rpc : CrawlRpc) (workers : List Str) (s : Nat) (url : Str)
    (doc_id : Nat) (hn : 1 ≤ workers.length) :
    (crawl rpc { workers := workers, next_worker := s } url doc_id).dispatched =
        some (s % workers.length, workers.getD (s % workers.length) []) ∧
    (crawl rpc { workers := workers, next_worker := s } url doc_id).impl =
        { workers := workers, next_worker := (s + 1) % 2 ^ 64 } := by
  have hne : workers.isEmpty = false := by
    cases workers with
    | nil => simp at hn
    | cons a l => rfl
  simp [crawl, hne]

theorem crawl_outcome (rpc : CrawlRpc) (workers : List Str) (s : Nat) (url : Str)
    (doc_id : Nat) (hn : 1 ≤ workers.length) :
    crawl rpc { workers := workers, next_worker := s } url doc_id =
      { result :=
          result_of
            (rpc (workers.getD (s % workers.length) []) { url := url, doc_id := doc_id }).1
            (rpc (workers.getD (s % workers.length) []) { url := url, doc_id := doc_id }).2,
        impl := { workers := workers, next_worker := (s + 1) % 2 ^ 64 },
        dispatched := some (s % workers.length, workers.getD (s % workers.length) []) } := by
  have hne : workers.isEmpty = false := by
    cases workers with
    | nil => simp at hn
    | cons a l => rfl
  simp only [crawl, hne, Bool.false_eq_true, if_false, result_of]

theorem run_outcomes (workers : List Str) (hn : 1 ≤ workers.length) :
    ∀ (calls : List Call) (s : Nat), s + calls.length < 2 ^ 64 →
      (run { workers := workers, next_worker := s } calls).2 =
        List.zipWith (outcome_at workers) (List.range' s calls.length) calls := by
  intro calls
  induction calls with
  | nil => intro s _; simp [run]
  | cons c cs ih =>
    intro s hs
    simp only [List.length_cons] at hs
    have hlt : (s + 1) % 2 ^ 64 = s + 1 := Nat.mod_eq_of_lt (by omega)
    simp only [run, crawl_outcome c.rpc workers s c.url c.doc_id hn, hlt, List.length_cons,
      List.range'_succ, List.zipWith_cons_cons, List.cons.injEq, outcome_at, true_and]
    exact ih (s + 1) (by omega)

theorem run_dispatched (workers : List Str) (hn : 1 ≤ workers.length)
    (calls : List Call) (s : Nat) (hs : s + calls.length < 2 ^ 64) :
    (run { workers := workers, next_worker := s } calls).2.map Outcome.dispatched =
      (List.range' s calls.length).map
        (fun j => some (j % workers.length, workers.getD (j % workers.length) [])) := by
  rw [run_outcomes workers hn calls s hs]
  clear hs
  induction calls generalizing s with
  | nil => simp
  | cons c cs ih =>
    simp only [List.length_cons, List.range'_succ, List.zipWith_cons_cons, List.map_cons,
      List.cons.injEq, outcome_at, true_and]
    exact ih (s + 1)

theorem count_residue (n k w : Nat) (hn : 0 < n) (hw : w < n) :
    (List.range k).countP (fun j => j % n == w) = k / n ∨
    (List.range k).countP (fun j => j % n == w) = (k + n - 1) / n := by
  have h := Nat.count_modEq_card (b := k) hn w
  have e : (List.range k).countP (fun j => j % n == w) = Nat.count (· ≡ w [MOD n]) k := by
    rw [Nat.count]
    apply List.countP_congr
    intro j _
    simp [Nat.ModEq, Nat.mod_eq_of_lt hw]
  rw [e, h]
  split_ifs with hlt
  · right
    have hk : 1 ≤ k % n := by omega
    have hm : k % n < n := Nat.mod_lt k hn
    have h1 := Nat.div_add_mod k n
    have h2 : k + n - 1 = (k % n - 1) + n * (k / n + 1) := by
      rw [Nat.mul_add]; omega
    have h3 : (k % n - 1) / n = 0 := Nat.div_eq_of_lt (by omega)
    rw [h2, Nat.add_mul_div_left _ _ hn, h3]
    omega
  · left; rfl

end CrawlMaster

/-! ## Claims on `CrawlMaster::crawl` -/

/-- C7: on a master with a fixed list of `n ≥ 1` workers and `next_worker = 0`, the
`j`-th of `k < 2 ^ 64` sequential `crawl` calls makes its RPC on `workers[j mod n]`,
whatever the transport did during the earlier calls: its result is built from what
the transport returns for that worker, and it leaves `next_worker = j + 1`; so each
worker handles `k / n` or `⌈k / n⌉` calls. -/
theorem C7_round_robin (workers : List Str) (calls : List CrawlMaster.Call)
    (hn : 1 ≤ workers.length) (hk : calls.length < 2 ^ 64) :
    (CrawlMaster.run { workers := workers, next_worker := 0 } calls).2 =
      List.zipWith (CrawlMaster.outcome_at workers) (List.range calls.length) calls ∧
    ∀ w : Fin workers.length,
      ((CrawlMaster.run { workers := workers, next_worker := 0 } calls).2.countP
          (fun o => o.dispatched.map Prod.fst == some w.val) =
            calls.length / workers.length ∨
        (CrawlMaster.run { workers := workers, next_worker := 0 } calls).2.countP
          (fun o => o.dispatched.map Prod.fst == some w.val) =
            (calls.length + workers.length - 1) / workers.length) := by
  have h := CrawlMaster.run_outcomes workers hn calls 0 (by omega)
  have hd := CrawlMaster.run_dispatched workers hn calls 0 (by omega)
  rw [← List.range_eq_range'] at h hd
  refine ⟨h, fun w => ?_⟩
  have e1 : (CrawlMaster.run { workers := workers, next_worker := 0 } calls).2.countP
        (fun o => o.dispatched.map Prod.fst == some w.val) =
      ((CrawlMaster.run { workers := workers, next_worker := 0 } calls).2.map
        CrawlMaster.Outcome.dispatched).countP (fun d => d.map Prod.fst == some w.val) := by
    rw [List.countP_map]; rfl
  rw [e1, hd, List.countP_map]
  have e : (List.range calls.length).countP
      ((fun d : Option (Nat × Str) => d.map Prod.fst == some w.val) ∘
        (fun j => some (j % workers.length, workers.getD (j % workers.length) []))) =
      (List.range calls.length).countP (fun j => j % workers.length == w.val) := by
    apply List.countP_congr
    intro j _
    simp
  rw [e]
  exact CrawlMaster.count_residue workers.length calls.length w.val (by omega) w.isLt

/-- Witness of C7: workers `A, B, C`, whose answers carry their own address as
`raw_text`, and six calls: the six results carry `A, B, C, A, B, C`. -/
theorem C7_round_robin_witness :
    1 ≤ [lit "A", lit "B", lit "C"].length ∧
    (List.replicate 6
      (CrawlMaster.Call.mk (lit "u") 1 CrawlMaster.echo_rpc)).length < 2 ^ 64 ∧
    ((CrawlMaster.run { workers := [lit "A", lit "B", lit "C"], next_worker := 0 }
        (List.replicate 6 (CrawlMaster.Call.mk (lit "u") 1 CrawlMaster.echo_rpc))).2.map
      (fun o => o.result.raw_text)) =
      [lit "A", lit "B", lit "C", lit "A", lit "B", lit "C"] :=
  ⟨by decide, by decide,
    (congrArg (List.map (fun o : CrawlMaster.Outcome => o.result.raw_text))
      (C7_round_robin [lit "A", lit "B", lit "C"]
        (List.replicate 6 (CrawlMaster.Call.mk (lit "u") 1 CrawlMaster.echo_rpc))
        (by decide) (by decide)).1).trans (by decide)⟩

/-- C8: on a master with no workers, `crawl url doc_id` returns the failure result
with `doc_id`, `url`, empty tokens, raw text and discovered URLs and the error
`No workers available`, calls no worker, and leaves the master state unchanged; so
does `crawl "http://x" 7`. -/
theorem C8_no_workers :
    (∀ (rpc : CrawlRpc) (next_worker : Nat) (url : Str) (doc_id : Nat),
      CrawlMaster.crawl rpc { workers := [], next_worker := next_worker } url doc_id =
        { result :=
            { doc_id := doc_id, url := url, tokens := [], raw_text := [], success := false,
              error := lit "No workers available", discovered_urls := [] },
          impl := { workers := [], next_worker := next_worker },
          dispatched := none }) ∧
    ∀ rpc : CrawlRpc,
      (CrawlMaster.crawl rpc { workers := [], next_worker := 0 } (lit "http://x") 7).result =
        { doc_id := 7, url := lit "http://x", tokens := [], raw_text := [], success := false,
          error := lit "No workers available", discovered_urls := [] } :=
  ⟨fun _ _ _ _ => rfl, fun _ => rfl⟩

/-- C9 (the source at the failing input): with one worker and a `Crawl` RPC that fails
in transport and leaves the response at its default value, `crawl "http://x" 7`
returns a result with `doc_id = 0` and the empty `url`. -/
theorem C9_transport_failure_result :
    (CrawlMaster.crawl
        (fun _ _ => ({ ok := false, error_message := lit "Deadline Exceeded" },
          CrawlResponse.fresh))
        { workers := [lit "localhost:50051"], next_worker := 0 } (lit "http://x") 7).result =
      { doc_id := 0, url := [], tokens := [], raw_text := [], success := false,
        error := lit "Deadline Exceeded", discovered_urls := [] } := by
  decide

/-- C10: whatever the master state, the arguments, the RPC status and the response,
a result of `crawl` with `success = false` has no tokens and no discovered URLs. -/
theorem C10_failure_result_empty (rpc : CrawlRpc) (impl : CrawlMaster.Impl) (url : Str)
    (doc_id : Nat) (h : (CrawlMaster.crawl rpc impl url doc_id).result.success = false) :
    (CrawlMaster.crawl rpc impl url doc_id).result.tokens = [] ∧
    (CrawlMaster.crawl rpc impl url doc_id).result.discovered_urls = [] := by
  revert h
  unfold CrawlMaster.crawl
  by_cases hw : impl.workers.isEmpty = true
  · simp [hw]
  · simp only [hw]
    generalize rpc _ _ = r
    rcases r with ⟨status, response⟩
    cases hok : status.ok <;> cases hsucc : response.success <;> simp [hok, hsucc]

/-- Witness of C10: the worker answers with `success = false` and yet one token and
one discovered URL in the response. -/
theorem C10_failure_result_empty_witness :
    (CrawlMaster.crawl
        (fun _ r => ({ ok := true, error_message := [] },
          { doc_id := r.doc_id, url := r.url, tokens := [lit "tok"], raw_text := lit "tok",
            discovered_urls := [lit "http://y"], success := false, error := lit "boom" }))
        { workers := [lit "localhost:50051"], next_worker := 0 } (lit "http://x")
        7).result.success = false ∧
    ((CrawlMaster.crawl
        (fun _ r => ({ ok := true, error_message := [] },
          { doc_id := r.doc_id, url := r.url, tokens := [lit "tok"], raw_text := lit "tok",
            discovered_urls := [lit "http://y"], success := false, error := lit "boom" }))
        { workers := [lit "localhost:50051"], next_worker := 0 } (lit "http://x")
        7).result.tokens = [] ∧
      (CrawlMaster.crawl
        (fun _ r => ({ ok := true, error_message := [] },
          { doc_id := r.doc_id, url := r.url, tokens := [lit "tok"], raw_text := lit "tok",
            discovered_urls := [lit "http://y"], success := false, error := lit "boom" }))
        { workers := [lit "localhost:50051"], next_worker := 0 } (lit "http://x")
        7).result.discovered_urls = []) :=
  ⟨by decide,
    C10_failure_result_empty
      (fun _ r => ({ ok := true, error_message := [] },
        { doc_id := r.doc_id, url := r.url, tokens := [lit "tok"], raw_text := lit "tok",
          discovered_urls := [lit "http://y"], success := false, error := lit "boom" }))
      { workers := [lit "localhost:50051"], next_worker := 0 } (lit "http://x") 7
      (by decide)⟩

/-! ## The worker service -/

namespace CrawlServiceImpl

theorem thrown_of_throws {env : CallEnv} {p : ThrowAt} {what : Str}
    (h : throws env p = some what) : env.thrown = some (p, what) := by
  unfold throws at h
  split at h
  · rename_i q w hq
    split at h
    · rename_i hqp
      simp only [Option.some.injEq] at h
      rw [hq, hqp, h]
    · simp at h
  · simp at h

theorem add_tokens_loop_props (env : CallEnv) (tokens : List Str) (r : CrawlResponse) :
    (add_tokens_loop env tokens r).1.doc_id = r.doc_id ∧
    (add_tokens_loop env tokens r).1.url = r.url ∧
    ∀ what, (add_tokens_loop env tokens r).2 = some what →
      ∃ p, env.thrown = some (p, what) := by
  unfold add_tokens_loop
  split
  · rename_i k w hk
    split
    · exact ⟨rfl, rfl, fun what h => ⟨ThrowAt.add_tokens k, by simp at h; rw [hk, h]⟩⟩
    · exact ⟨rfl, rfl, fun what h => by simp at h⟩
  · exact ⟨rfl, rfl, fun what h => by simp at h⟩

theorem add_discovered_urls_loop_props (env : CallEnv) (links : List Str)
    (r : CrawlResponse) :
    (add_discovered_urls_loop env links r).1.doc_id = r.doc_id ∧
    (add_discovered_urls_loop env links r).1.url = r.url ∧
    ∀ what, (add_discovered_urls_loop env links r).2 = some what →
      ∃ p, env.thrown = some (p, what) := by
  unfold add_discovered_urls_loop
  split
  · rename_i k w hk
    split
    · exact ⟨rfl, rfl, fun what h => ⟨ThrowAt.add_discovered_urls k, by simp at h; rw [hk, h]⟩⟩
    · exact ⟨rfl, rfl, fun what h => by simp at h⟩
  · exact ⟨rfl, rfl, fun what h => by simp at h⟩

theorem try_block_finished (env : CallEnv) (request : CrawlRequest) (html : Str)
    (r0 r : CrawlResponse) (h : try_block env request html r0 = TryEnd.finished r) :
    r.doc_id = r0.doc_id ∧ r.url = r0.url ∧
      (r.success = false → html = [] ∧ r.error = lit "Empty response") := by
  obtain ⟨t1, t2, -⟩ := add_tokens_loop_props env (tokenize html) r0
  obtain ⟨u1, u2, -⟩ := add_discovered_urls_loop_props env (extract_links html request.url)
    { (add_tokens_loop env (tokenize html) r0).1 with raw_text := strip_html html }
  unfold try_block at h
  split at h
  · simp at h
  · split at h
    · rename_i hempty
      simp only [TryEnd.finished.injEq] at h
      subst h
      refine ⟨rfl, rfl, fun _ => ⟨?_, rfl⟩⟩
      cases html with
      | nil => rfl
      | cons a l => simp at hempty
    · split at h
      · simp at h
      · split at h
        · simp at h
        · simp only at h
          split at h
          · simp at h
          · split at h
            · simp at h
            · split at h
              · split at h
                · simp at h
                · simp only [TryEnd.finished.injEq] at h
                  subst h
                  exact ⟨u1.trans t1, u2.trans t2, fun hs => by simp at hs⟩
              · simp at h

theorem try_block_caught (env : CallEnv) (request : CrawlRequest) (html : Str)
    (r0 r : CrawlResponse) (what : Str)
    (h : try_block env request html r0 = TryEnd.caught r what) :
    r.doc_id = r0.doc_id ∧ r.url = r0.url ∧ ∃ p, env.thrown = some (p, what) := by
  obtain ⟨t1, t2, t3⟩ := add_tokens_loop_props env (tokenize html) r0
  obtain ⟨u1, u2, u3⟩ := add_discovered_urls_loop_props env (extract_links html request.url)
    { (add_tokens_loop env (tokenize html) r0).1 with raw_text := strip_html html }
  unfold try_block at h
  split at h
  · rename_i w hw
    simp only [TryEnd.caught.injEq] at h
    obtain ⟨rfl, rfl⟩ := h
    exact ⟨rfl, rfl, ThrowAt.fetch_url, thrown_of_throws hw⟩
  · split at h
    · simp at h
    · split at h
      · rename_i w hw
        simp only [TryEnd.caught.injEq] at h
        obtain ⟨rfl, rfl⟩ := h
        exact ⟨rfl, rfl, ThrowAt.tokenize, thrown_of_throws hw⟩
      · split at h
        · rename_i w hw
          simp only [TryEnd.caught.injEq] at h
          obtain ⟨rfl, rfl⟩ := h
          exact ⟨t1, t2, t3 _ hw⟩
        · simp only at h
          split at h
          · rename_i w hw
            simp only [TryEnd.caught.injEq] at h
            obtain ⟨rfl, rfl⟩ := h
            exact ⟨t1, t2, ThrowAt.strip_html, thrown_of_throws hw⟩
          · split at h
            · rename_i w hw
              simp only [TryEnd.caught.injEq] at h
              obtain ⟨rfl, rfl⟩ := h
              exact ⟨t1, t2, ThrowAt.extract_links, thrown_of_throws hw⟩
            · split at h
              · split at h
                · rename_i w hw
                  simp only [TryEnd.caught.injEq] at h
                  obtain ⟨rfl, rfl⟩ := h
                  exact ⟨u1.trans t1, u2.trans t2, u3 _ hw⟩
                · simp at h
              · simp at h

theorem Crawl_props (env : CallEnv) (st : State) (request : CrawlRequest) (html : Str)
    (out : Status × CrawlResponse × State) (h : Crawl env st request html = some out) :
    out.1 = OK ∧ out.2.2 = st ∧
    out.2.1.doc_id = request.doc_id ∧ out.2.1.url = request.url ∧
    (out.2.1.success = false →
      (html = [] ∧ out.2.1.error = lit "Empty response") ∨
      ∃ p what, env.thrown = some (p, what) ∧ out.2.1.error = what) := by
  unfold Crawl at h
  simp only at h
  split at h
  · rename_i r hr
    have hp := try_block_finished env request html _ r hr
    simp only [Option.some.injEq] at h
    subst h
    exact ⟨rfl, rfl, hp.1, hp.2.1, fun hs => Or.inl (hp.2.2 hs)⟩
  · rename_i r w hr
    obtain ⟨h1, h2, p, hpw⟩ := try_block_caught env request html _ r w hr
    simp only [Option.some.injEq] at h
    subst h
    exact ⟨rfl, rfl, h1, h2, fun _ => Or.inr ⟨p, w, hpw, rfl⟩⟩
  · simp at h

end CrawlServiceImpl

namespace CrawlServiceImpl

end CrawlServiceImpl

/-- C11 (the source at the failing input): no `Crawl` call that returns changes
`pages_crawled_` or `pages_failed_`; after one call whose fetch returned the empty
body on a worker with both counters at `0`, the response has `success = false` and
`ReportStatus` still reports `pages_failed = 0` and `pages_crawled = 0`. -/
theorem C11_counters_never_change :
    (∀ (env : CrawlServiceImpl.CallEnv) (st : CrawlServiceImpl.State)
        (request : CrawlRequest) (html : Str),
      (CrawlServiceImpl.Crawl env st request html).map (fun out => out.2.2) =
        (CrawlServiceImpl.Crawl env st request html).map (fun _ => st)) ∧
    (CrawlServiceImpl.Crawl { stack := 100000, thrown := none }
        { pages_crawled_ := 0, pages_failed_ := 0 }
        { url := lit "http://x", doc_id := 7 } []).map (fun out => out.2.1.success) =
      some false ∧
    (CrawlServiceImpl.Crawl { stack := 100000, thrown := none }
        { pages_crawled_ := 0, pages_failed_ := 0 }
        { url := lit "http://x", doc_id := 7 } []).map
        (fun out => (CrawlServiceImpl.ReportStatus out.2.2).2.1) =
      some { pages_crawled := 0, pages_failed := 0 } := by
  refine ⟨fun env st request html => ?_, by decide, by decide⟩
  cases h : CrawlServiceImpl.Crawl env st request html with
  | none => rfl
  | some out =>
    have hp := CrawlServiceImpl.Crawl_props env st request html out h
    simp only [Option.map_some', hp.2.1]

theorem tolower_idem (c : Nat) : tolower (tolower c) = tolower c := by
  unfold tolower
  split_ifs <;> omega

theorem to_lower_idem (T : Str) : to_lower (to_lower T) = to_lower T := by
  simp [to_lower, tolower_idem]

theorem tolower_eq_iff_of_not_upper {c k : Nat} (hk : ¬ (65 ≤ k ∧ k ≤ 122)) :
    tolower c = k ↔ c = k := by
  unfold tolower
  split_ifs <;> omega

/-- C14: `to_lower T` has the length of `T` and, at every position, the byte of `T`
plus 32 when that byte is in `A`..`Z` and the byte of `T` itself otherwise. -/
theorem C14_to_lower_pointwise (T : Str) :
    (to_lower T).length = T.length ∧
    ∀ i : Nat, (to_lower T)[i]? =
      T[i]?.map (fun b => if 65 ≤ b ∧ b ≤ 90 then b + 32 else b) := by
  refine ⟨by simp [to_lower], fun i => ?_⟩
  simp only [to_lower, List.getElem?_map]
  rfl

/-- C15: `to_lower (to_lower B) = to_lower B`, for every byte string `B` and so for
every ASCII one. -/
theorem C15_to_lower_idempotent (B : Str) : to_lower (to_lower B) = to_lower B :=
  to_lower_idem B

/-! ## `strip_html`: what is never emitted, and case folding -/

theorem strip_tail_no_lt_out (l : Str) : ∀ t s : Bool, 60 ∉ strip_tail t s l := by
  induction l with
  | nil => intro t s; simp [strip_tail]
  | cons c rest ih =>
    intro t s
    rw [strip_tail]
    by_cases h1 : (!t && c == 60) = true
    · simp only [h1, if_true]; exact ih _ _
    · simp only [h1, if_false, Bool.false_eq_true]
      by_cases h2 : (t && c == 62) = true
      · simp only [h2, if_true, List.mem_cons, not_or]
        exact ⟨by decide, ih _ _⟩
      · simp only [h2, if_false, Bool.false_eq_true]
        by_cases h3 : (!t && !s) = true
        · simp only [h3, if_true, List.mem_cons, not_or]
          refine ⟨?_, ih _ _⟩
          intro e
          subst e
          cases t <;> simp_all
        · simp only [h3, if_false, Bool.false_eq_true]; exact ih _ _

theorem strip_tail_length (l : Str) : ∀ t s : Bool, (strip_tail t s l).length ≤ l.length := by
  induction l with
  | nil => intro t s; simp [strip_tail]
  | cons c rest ih =>
    intro t s
    rw [strip_tail]
    split_ifs
    · have := ih true (lt_in_script rest s); simp only [List.length_cons]; omega
    · have := ih false s; simp only [List.length_cons]; omega
    · have := ih t s; simp only [List.length_cons]; omega
    · have := ih t s; simp only [List.length_cons]; omega

/-- C18: `strip_html B` contains no `<` byte and is at most as long as `B`. -/
theorem C18_strip_html_no_lt_out (B : Str) :
    (strip_html B).all (fun c => c != 60) = true ∧ (strip_html B).length ≤ B.length := by
  rw [strip_html_eq_tail]
  refine ⟨?_, strip_tail_length B false false⟩
  rw [List.all_eq_true]
  intro c hc
  have h := strip_tail_no_lt_out B false false
  have hne : c ≠ 60 := fun e => h (e ▸ hc)
  simpa using hne

theorem begins_nocase_map_tolower (l w : Str) :
    begins_nocase (l.map tolower) w = begins_nocase l w := by
  simp only [begins_nocase, ← List.map_take, List.map_map]
  have h : (tolower ∘ tolower) = tolower := by
    funext c; exact tolower_idem c
  rw [h]

theorem tolower_beq (c k : Nat) (hk : ¬ (65 ≤ k ∧ k ≤ 122)) :
    (tolower c == k) = (c == k) := by
  have h := tolower_eq_iff_of_not_upper (c := c) hk
  by_cases hc : c = k
  · rw [beq_iff_eq.2 hc, beq_iff_eq.2 (h.2 hc)]
  · have h2 : ¬ tolower c = k := fun e => hc (h.1 e)
    rw [beq_eq_false_iff_ne.2 hc, beq_eq_false_iff_ne.2 h2]

theorem lt_in_script_map_tolower (rest : Str) (s : Bool) :
    lt_in_script (rest.map tolower) s = lt_in_script rest s := by
  have hh : ((rest.map tolower).head? == some 47) = (rest.head? == some 47) := by
    cases rest with
    | nil => rfl
    | cons a r =>
      have := tolower_beq a 47 (by omega)
      simpa using this
  rw [lt_in_script_eq, lt_in_script_eq, hh, ← List.map_tail, begins_nocase_map_tolower,
    begins_nocase_map_tolower, begins_nocase_map_tolower, begins_nocase_map_tolower,
    List.length_map]

theorem strip_tail_map_tolower (l : Str) : ∀ t s : Bool,
    strip_tail t s (l.map tolower) = (strip_tail t s l).map tolower := by
  induction l with
  | nil => intro t s; simp [strip_tail]
  | cons c rest ih =>
    intro t s
    have h32 : tolower 32 = 32 := by decide
    rw [List.map_cons, strip_tail, strip_tail, tolower_beq c 60 (by omega),
      tolower_beq c 62 (by omega), lt_in_script_map_tolower]
    split_ifs <;> simp [ih, h32]

/-- C20: `strip_html` commutes with `to_lower`, and so `tokenize` does not depend on
the letter case of the body, markup included. -/
theorem C20_case_insensitive (B : Str) :
    strip_html (to_lower B) = to_lower (strip_html B) ∧
    tokenize (to_lower B) = tokenize B := by
  have h : strip_html (to_lower B) = to_lower (strip_html B) := by
    rw [strip_html_eq_tail, strip_html_eq_tail]
    exact strip_tail_map_tolower B false false
  refine ⟨h, ?_⟩
  simp only [tokenize, h, to_lower_idem]

/-! ## `strip_html`: an unclosed `<` -/

theorem begins_nocase_cons (a w : Nat) (l W : Str) :
    begins_nocase (a :: l) (w :: W) = (tolower a == w && begins_nocase l W) := by
  simp [begins_nocase]

theorem begins_nocase_append_lt (R : Str) (W : Str) (hW : 60 ∉ W) : ∀ l : Str,
    begins_nocase (l ++ 60 :: R) W = begins_nocase l W := by
  induction W with
  | nil => intro l; simp [begins_nocase]
  | cons w W ih =>
    intro l
    simp only [List.mem_cons, not_or] at hW
    cases l with
    | nil =>
      have h60 : tolower 60 = 60 := by decide
      have hw : ¬ (60 = w) := hW.1
      simp [begins_nocase, h60, hw]
    | cons a l =>
      rw [List.cons_append, begins_nocase_cons, begins_nocase_cons, ih hW.2]

theorem spec_in_script_append_lt (B R : Str) (s : Bool) :
    spec_in_script (B ++ 60 :: R) s = spec_in_script B s := by
  have h1 : (60 : Nat) ∉ SCRIPT := by decide
  have h2 : (60 : Nat) ∉ STYLE := by decide
  cases B with
  | nil =>
    have e1 : begins_nocase (60 :: R) SCRIPT = begins_nocase [] SCRIPT :=
      begins_nocase_append_lt R _ h1 []
    have e2 : begins_nocase (60 :: R) STYLE = begins_nocase [] STYLE :=
      begins_nocase_append_lt R _ h2 []
    simp [spec_in_script, e1, e2]
  | cons a B =>
    have e1 : begins_nocase (a :: (B ++ 60 :: R)) SCRIPT = begins_nocase (a :: B) SCRIPT :=
      begins_nocase_append_lt R _ h1 (a :: B)
    have e2 : begins_nocase (a :: (B ++ 60 :: R)) STYLE = begins_nocase (a :: B) STYLE :=
      begins_nocase_append_lt R _ h2 (a :: B)
    simp only [spec_in_script, List.cons_append, List.head?_cons, List.tail_cons,
      begins_nocase_append_lt R _ h1, begins_nocase_append_lt R _ h2, e1, e2]

theorem spec_scan_guarded_in_tag_nil (R : Str) (h : 62 ∉ R) : ∀ s : Bool,
    spec_scan_guarded true s R = [] := by
  induction R with
  | nil => intro s; simp [spec_scan_guarded]
  | cons c R ih =>
    intro s
    simp only [List.mem_cons, not_or] at h
    have hc : ¬ c = 62 := fun e => h.1 e.symm
    rw [spec_scan_guarded]
    simp [hc, ih h.2]

theorem spec_scan_guarded_append_lt (R : Str) (h : 62 ∉ R) : ∀ (B : Str) (t s : Bool),
    spec_scan_guarded t s (B ++ 60 :: R) = spec_scan_guarded t s B := by
  intro B
  induction B with
  | nil =>
    intro t s
    rw [List.nil_append, spec_scan_guarded]
    cases t <;> simp [spec_scan_guarded, spec_scan_guarded_in_tag_nil R h]
  | cons c B ih =>
    intro t s
    rw [List.cons_append, spec_scan_guarded, spec_scan_guarded, spec_in_script_append_lt]
    split_ifs <;> simp [ih]

/-- C17: for every body `B` and every `R` that contains no `>`, the body
`B ++ "<" ++ R` is stripped to the same text as `B`. -/
theorem C17_unclosed_lt (B R : Str) (h : 62 ∉ R) :
    strip_html (B ++ lit "<" ++ R) = strip_html B := by
  have e : lit "<" = [60] := by decide
  rw [e, List.append_assoc, List.singleton_append, strip_html_eq_tail, strip_html_eq_tail,
    strip_tail_eq_spec, strip_tail_eq_spec]
  exact spec_scan_guarded_append_lt R h B false false

/-- Witness of C17: `B` ends with `<style>`, which the longer body lets the scan
recognise as an opening tag, and `R` is `b class=x`. -/
theorem C17_unclosed_lt_witness :
    62 ∉ lit "b class=x" ∧
    strip_html (lit "Hi <style>" ++ lit "<" ++ lit "b class=x") =
      strip_html (lit "Hi <style>") :=
  ⟨by decide, C17_unclosed_lt (lit "Hi <style>") (lit "b class=x") (by decide)⟩

/-! ## Tokenizing the tokens again -/

theorem intercalate_cons_cons (sep t u : Str) (ts : List Str) :
    sep.intercalate (t :: u :: ts) = t ++ sep ++ sep.intercalate (u :: ts) := by
  simp [List.intercalate, List.intersperse]

theorem splitOnP_intercalate (p : Nat → Bool) (sep : Nat) (hsep : p sep = true) :
    ∀ ts : List Str, ts ≠ [] → (∀ t ∈ ts, ∀ c ∈ t, p c = false) →
      ([sep].intercalate ts).splitOnP p = ts := by
  intro ts
  induction ts with
  | nil => intro h; exact absurd rfl h
  | cons t ts ih =>
    intro _ hts
    have ht : ∀ x ∈ t, ¬ p x = true := by
      intro x hx
      simp [hts t (List.mem_cons_self _ _) x hx]
    cases ts with
    | nil =>
      have e : [sep].intercalate [t] = t := by simp [List.intercalate, List.intersperse]
      rw [e]
      exact List.splitOnP_eq_single p t ht
    | cons u us =>
      rw [intercalate_cons_cons, List.append_assoc, List.singleton_append,
        List.splitOnP_first p t ht sep hsep,
        ih (by simp) (fun t' ht' => hts t' (List.mem_cons_of_mem _ ht'))]

theorem tokenize_mem (B t : Str) (ht : t ∈ tokenize B) :
    t ≠ [] ∧ (∀ c ∈ t, (97 ≤ c ∧ c ≤ 122) ∨ (48 ≤ c ∧ c ≤ 57)) ∧ is_stop_word t = false := by
  rw [tokenize_eq_spec] at ht
  simp only [tokenize_spec, alnum_runs, List.mem_filter, Bool.not_eq_true',
    List.isEmpty_eq_false] at ht
  obtain ⟨⟨hrun, hne⟩, hstop⟩ := ht
  refine ⟨hne, ?_, hstop⟩
  intro c hc
  rcases splitOnP_go_mem _ _ [] t hrun c hc with h | ⟨hmem, hp⟩
  · simp at h
  · obtain ⟨c0, -, rfl⟩ := List.mem_map.1 hmem
    exact isalnum_tolower (by simpa using hp)

theorem mem_intercalate_space (ts : List Str) : ∀ c : Nat,
    c ∈ [32].intercalate ts → c = 32 ∨ ∃ t ∈ ts, c ∈ t := by
  induction ts with
  | nil => intro c hc; simp [List.intercalate, List.intersperse] at hc
  | cons t ts ih =>
    intro c hc
    cases ts with
    | nil =>
      have e : [32].intercalate [t] = t := by simp [List.intercalate, List.intersperse]
      rw [e] at hc
      exact Or.inr ⟨t, List.mem_cons_self _ _, hc⟩
    | cons u us =>
      rw [intercalate_cons_cons, List.mem_append, List.mem_append] at hc
      rcases hc with (hc | hc) | hc
      · exact Or.inr ⟨t, List.mem_cons_self _ _, hc⟩
      · left; simpa using hc
      · rcases ih c hc with h | ⟨t', ht', hct'⟩
        · exact Or.inl h
        · exact Or.inr ⟨t', List.mem_cons_of_mem _ ht', hct'⟩

theorem tokenize_intercalate (ts : List Str)
    (hts : ∀ t ∈ ts, t ≠ [] ∧ (∀ c ∈ t, (97 ≤ c ∧ c ≤ 122) ∨ (48 ≤ c ∧ c ≤ 57)) ∧
      is_stop_word t = false) :
    tokenize ([32].intercalate ts) = ts := by
  have hJ : ∀ c ∈ [32].intercalate ts, c = 32 ∨ (97 ≤ c ∧ c ≤ 122) ∨ (48 ≤ c ∧ c ≤ 57) := by
    intro c hc
    rcases mem_intercalate_space ts c hc with h | ⟨t, ht, hct⟩
    · exact Or.inl h
    · exact Or.inr ((hts t ht).2.1 c hct)
  have h1 : strip_html ([32].intercalate ts) = [32].intercalate ts := by
    rw [strip_html_eq_tail]
    apply strip_tail_no_lt
    intro h60
    have := hJ 60 h60
    omega
  have h2 : to_lower ([32].intercalate ts) = [32].intercalate ts := by
    unfold to_lower
    conv_rhs => rw [← List.map_id ([32].intercalate ts)]
    apply List.map_congr_left
    intro c hc
    have := hJ c hc
    simp only [tolower, id]
    split_ifs <;> omega
  rw [tokenize_eq_spec, tokenize_spec, alnum_runs, h1, h2]
  cases ts with
  | nil => decide
  | cons t us =>
    rw [splitOnP_intercalate (fun c => !isalnum c) 32 (by decide) (t :: us) (by simp)]
    · have hf1 : (t :: us).filter (fun r => !r.isEmpty) = t :: us := by
        rw [List.filter_eq_self]
        intro a ha
        have := (hts a ha).1
        cases a with
        | nil => exact absurd rfl this
        | cons x xs => rfl
      have hf2 : (t :: us).filter (fun r => !is_stop_word r) = t :: us := by
        rw [List.filter_eq_self]
        intro a ha
        simp [(hts a ha).2.2]
      rw [hf1, hf2]
    · intro a ha c hc
      have := (hts a ha).2.1 c hc
      simp only [isalnum, Bool.not_eq_false', Bool.or_eq_true, Bool.and_eq_true,
        decide_eq_true_eq]
      omega

/-- C13: tokenizing the tokens of `B` joined by single spaces gives the tokens of `B`
again. -/
theorem C13_retokenize (B : Str) :
    tokenize ((lit " ").intercalate (tokenize B)) = tokenize B := by
  have e : lit " " = [32] := by decide
  rw [e]
  exact tokenize_intercalate (tokenize B) (fun t ht => tokenize_mem B t ht)

/-! ## `strip_html` and `tokenize` on a script element -/

theorem begins_nocase_to_lower {l W : Str} (h : begins_nocase l W = true) :
    W <+: to_lower l := by
  simp only [begins_nocase, beq_iff_eq] at h
  have e : to_lower l = (l.take W.length).map tolower ++ (l.drop W.length).map tolower := by
    rw [to_lower, ← List.map_append, List.take_append_drop]
  rw [e, h]
  exact List.prefix_append _ _

theorem spec_in_script_body (S R : Str)
    (h1 : ¬ (lit "</script" <:+: to_lower (60 :: S)))
    (h2 : ¬ (lit "</style" <:+: to_lower (60 :: S))) :
    spec_in_script (S ++ 60 :: R) true = true := by
  have e1 : lit "</script" = 60 :: 47 :: SCRIPT := by decide
  have e2 : lit "</style" = 60 :: 47 :: STYLE := by decide
  have n1 : (60 : Nat) ∉ SCRIPT := by decide
  have n2 : (60 : Nat) ∉ STYLE := by decide
  have t60 : tolower 60 = 60 := by decide
  have t47 : tolower 47 = 47 := by decide
  cases S with
  | nil => simp [spec_in_script]
  | cons a S =>
    simp only [spec_in_script, List.cons_append, List.head?_cons, List.tail_cons,
      begins_nocase_append_lt R _ n1, begins_nocase_append_lt R _ n2]
    by_cases ha : a = 47
    · subst ha
      have c1 : begins_nocase S SCRIPT = false := by
        by_contra hc
        simp only [Bool.not_eq_false] at hc
        obtain ⟨w, hw⟩ := begins_nocase_to_lower hc
        apply h1
        rw [e1]
        refine ⟨[], w, ?_⟩
        simp only [to_lower, List.map_cons, t60, t47, List.nil_append, List.cons_append]
        rw [hw]; rfl
      have c2 : begins_nocase S STYLE = false := by
        by_contra hc
        simp only [Bool.not_eq_false] at hc
        obtain ⟨w, hw⟩ := begins_nocase_to_lower hc
        apply h2
        rw [e2]
        refine ⟨[], w, ?_⟩
        simp only [to_lower, List.map_cons, t60, t47, List.nil_append, List.cons_append]
        rw [hw]; rfl
      simp [c1, c2]
    · have hne : (some a == some 47) = false := by simpa using ha
      simp [hne]

theorem spec_scan_guarded_no_lt (T : Str) (h : 60 ∉ T) :
    spec_scan_guarded false false T = T := by
  rw [← strip_tail_eq_spec, strip_tail_no_lt T h]

theorem spec_scan_close_script (T : Str) (h : 60 ∉ T) :
    spec_scan_guarded false true
      (60 :: 47 :: 115 :: 99 :: 114 :: 105 :: 112 :: 116 :: 62 :: T) = 32 :: T := by
  have hs : spec_in_script (47 :: 115 :: 99 :: 114 :: 105 :: 112 :: 116 :: 62 :: T) true =
      false := by
    simp [spec_in_script, begins_nocase, SCRIPT, tolower]
  rw [spec_scan_guarded]
  simp only [true_and, and_self, if_true, hs]
  simp [spec_scan_guarded, spec_scan_guarded_no_lt T h]

theorem spec_scan_script_body (T : Str) (hT : 60 ∉ T) : ∀ (S : Str) (t : Bool),
    ends_in_tag t S = false →
    ¬ (lit "</script" <:+: to_lower S) → ¬ (lit "</style" <:+: to_lower S) →
    ∃ n : Nat, spec_scan_guarded t true
        (S ++ (60 :: 47 :: 115 :: 99 :: 114 :: 105 :: 112 :: 116 :: 62 :: T)) =
      List.replicate n 32 ++ T := by
  intro S
  induction S with
  | nil =>
    intro t ht _ _
    simp only [ends_in_tag] at ht
    subst ht
    exact ⟨1, by rw [List.nil_append, spec_scan_close_script T hT]; rfl⟩
  | cons c S ih =>
    intro t ht h1 h2
    have h1' : ¬ (lit "</script" <:+: to_lower S) := fun h =>
      h1 (by rw [to_lower, List.map_cons]; exact List.infix_cons h)
    have h2' : ¬ (lit "</style" <:+: to_lower S) := fun h =>
      h2 (by rw [to_lower, List.map_cons]; exact List.infix_cons h)
    rw [ends_in_tag] at ht
    rw [List.cons_append, spec_scan_guarded]
    by_cases hlt : c = 60 ∧ t = false
    · obtain ⟨rfl, rfl⟩ := hlt
      simp only [Bool.not_false, beq_self_eq_true, Bool.and_self, if_true] at ht
      have hs := spec_in_script_body S (47 :: 115 :: 99 :: 114 :: 105 :: 112 :: 116 :: 62 :: T)
        h1 h2
      simp only [and_self, if_true, hs]
      exact ih true ht h1' h2'
    · have hlt' : (!t && c == 60) = false := by
        cases t <;> simp_all
      simp only [hlt', Bool.false_eq_true, if_false] at ht
      simp only [hlt, if_false]
      by_cases hgt : c = 62 ∧ t = true
      · obtain ⟨rfl, rfl⟩ := hgt
        simp only [Bool.true_and, beq_self_eq_true, if_true] at ht
        obtain ⟨n, hn⟩ := ih false ht h1' h2'
        refine ⟨n + 1, ?_⟩
        simp only [and_self, if_true, hn]
        rfl
      · have hgt' : (t && c == 62) = false := by
          cases t <;> simp_all
        simp only [hgt', Bool.false_eq_true, if_false] at ht
        simp only [hgt, if_false, Bool.true_eq_false, and_false]
        exact ih t ht h1' h2'

theorem strip_html_script_element (S T : Str) (hS : ends_in_tag false S = false)
    (h1 : ¬ (lit "</script" <:+: to_lower S)) (h2 : ¬ (lit "</style" <:+: to_lower S))
    (hT : 60 ∉ T) :
    ∃ n : Nat, strip_html (lit "<script>" ++ S ++ lit "</script>" ++ T) =
      List.replicate n 32 ++ T := by
  have e1 : lit "<script>" = [60, 115, 99, 114, 105, 112, 116, 62] := by decide
  have e2 : lit "</script>" = [60, 47, 115, 99, 114, 105, 112, 116, 62] := by decide
  obtain ⟨n, hn⟩ := spec_scan_script_body T hT S false hS h1 h2
  refine ⟨n + 1, ?_⟩
  rw [strip_html_eq_tail, strip_tail_eq_spec, e1, e2]
  have hs : ∀ X : Str, spec_in_script (115 :: 99 :: 114 :: 105 :: 112 :: 116 :: 62 :: X) false =
      true := by
    intro X
    simp [spec_in_script, begins_nocase, SCRIPT, tolower]
  have hX : [60, 115, 99, 114, 105, 112, 116, 62] ++ S ++
        [60, 47, 115, 99, 114, 105, 112, 116, 62] ++ T =
      60 :: 115 :: 99 :: 114 :: 105 :: 112 :: 116 :: 62 ::
        (S ++ (60 :: 47 :: 115 :: 99 :: 114 :: 105 :: 112 :: 116 :: 62 :: T)) := by
    simp
  rw [hX, spec_scan_guarded]
  simp only [and_self, if_true, hs]
  simp [spec_scan_guarded, hn, List.replicate_succ]

theorem alnum_runs_leading_spaces (n : Nat) (l : Str) :
    alnum_runs (List.replicate n 32 ++ l) = alnum_runs l := by
  induction n with
  | zero => simp
  | succ n ih =>
    have h32 : (!isalnum 32) = true := by decide
    rw [List.replicate_succ, List.cons_append]
    unfold alnum_runs at ih ⊢
    rw [List.splitOnP_cons]
    simp only [h32, if_true, List.filter_cons, List.isEmpty_nil, Bool.not_true,
      Bool.false_eq_true, if_false]
    exact ih

theorem tokenize_of_strip (X T : Str) (n : Nat)
    (hX : strip_html X = List.replicate n 32 ++ T) (hT : 60 ∉ T) :
    tokenize X = tokenize T := by
  have h32 : tolower 32 = 32 := by decide
  have hT' : strip_html T = T := by rw [strip_html_eq_tail, strip_tail_no_lt T hT]
  rw [tokenize_eq_spec, tokenize_eq_spec, tokenize_spec, tokenize_spec, hX, hT']
  have e : to_lower (List.replicate n 32 ++ T) = List.replicate n 32 ++ to_lower T := by
    simp [to_lower, h32]
  rw [e, alnum_runs_leading_spaces]

/-! ## Claims on script elements -/

/-- C16 (as stated, refuted): the script body `if (a<b) x();` contains neither
`</script` nor `</style`, yet its unclosed `<` swallows the closing tag, so the text
`keep ME` after the element is lost; and for the body `var x='<b>nope</b>';` the
tokens are `keep` alone, because `me` is a stop word. -/
theorem C16_script_element_counterexample :
    ¬ (lit "</script" <:+: to_lower (lit "if (a<b) x();")) ∧
    ¬ (lit "</style" <:+: to_lower (lit "if (a<b) x();")) ∧
    60 ∉ lit "keep ME" ∧
    tokenize (lit "<script>" ++ lit "if (a<b) x();" ++ lit "</script>" ++ lit "keep ME") = [] ∧
    tokenize (lit "keep ME") = [lit "keep"] ∧
    tokenize (lit "<script>" ++ lit "var x='<b>nope</b>';" ++ lit "</script>" ++ lit "keep ME")
      = [lit "keep"] ∧
    lit "me" ∈ STOP_WORDS := by
  decide

/-- C16 (amended): for every script body `S` that contains neither `</script` nor
`</style` (compared case-insensitively) and in which every `<` that opens a tag is
followed by a `>` that closes it, and every text `T` that contains no `<`,
`tokenize ("<script>" ++ S ++ "</script>" ++ T) = tokenize T`. -/
theorem C16_script_element (S T : Str)
    (h1 : ¬ (lit "</script" <:+: to_lower S)) (h2 : ¬ (lit "</style" <:+: to_lower S))
    (hS : ends_in_tag false S = false) (hT : 60 ∉ T) :
    tokenize (lit "<script>" ++ S ++ lit "</script>" ++ T) = tokenize T := by
  obtain ⟨n, hn⟩ := strip_html_script_element S T hS h1 h2 hT
  exact tokenize_of_strip _ T n hn hT

/-- Witness of C16 (amended): `S` is `var x='<b>nope</b>';` and `T` is `keep ME`; the
tokens are `keep` alone. -/
theorem C16_script_element_witness :
    ¬ (lit "</script" <:+: to_lower (lit "var x='<b>nope</b>';")) ∧
    ¬ (lit "</style" <:+: to_lower (lit "var x='<b>nope</b>';")) ∧
    ends_in_tag false (lit "var x='<b>nope</b>';") = false ∧
    60 ∉ lit "keep ME" ∧
    tokenize (lit "<script>" ++ lit "var x='<b>nope</b>';" ++ lit "</script>" ++ lit "keep ME")
      = tokenize (lit "keep ME") ∧
    tokenize (lit "keep ME") = [lit "keep"] :=
  ⟨by decide, by decide, by decide, by decide,
    C16_script_element (lit "var x='<b>nope</b>';") (lit "keep ME") (by decide) (by decide)
      (by decide) (by decide),
    by decide⟩

/-! ## The href pattern -/

theorem dropWhile_cons_head {p : Nat → Bool} {l : Str} {c : Nat} {r : Str}
    (h : l.dropWhile p = c :: r) : p c = false ∧ l = l.takeWhile p ++ c :: r := by
  constructor
  · have := List.head?_dropWhile_not p l
    rw [h] at this
    simpa using this
  · rw [← h, List.takeWhile_append_dropWhile]

theorem match_href_some (s v : Str) (len : Nat) (h : match_href s = some (v, len)) :
    ∃ (kw ws1 ws2 post : Str) (q1 q2 : Nat),
      s = kw ++ ws1 ++ [61] ++ ws2 ++ [q1] ++ v ++ [q2] ++ post ∧
      to_lower kw = lit "href" ∧
      (∀ c ∈ ws1, isspace c = true) ∧ (∀ c ∈ ws2, isspace c = true) ∧
      is_quote q1 = true ∧ is_quote q2 = true ∧
      v ≠ [] ∧ ∀ c ∈ v, is_quote c = false := by
  have e : lit "href" = [104, 114, 101, 102] := by decide
  unfold match_href at h
  split at h
  · rename_i hkw
    split at h
    · rename_i s2 hs1
      split at h
      · rename_i q s4 hs2
        split at h
        · rename_i hq
          simp only at h
          split at h
          · rename_i x y a b c d hv hd
            simp only [Option.some.injEq, Prod.mk.injEq] at h
            obtain ⟨h1, h2⟩ := dropWhile_cons_head hs1
            obtain ⟨h3, h4⟩ := dropWhile_cons_head hs2
            obtain ⟨h5, h6⟩ := dropWhile_cons_head hd
            refine ⟨s.take 4, (s.drop 4).takeWhile isspace, s2.takeWhile isspace, d, q, c,
              ?_, ?_, ?_, ?_, hq, ?_, ?_, ?_⟩
            · conv_lhs => rw [← List.take_append_drop 4 s, h2, h4, h6]
              rw [← h.1]
              simp
            · rw [e]; simpa [to_lower] using hkw
            · intro c hc; exact List.mem_takeWhile_imp hc
            · intro c hc; exact List.mem_takeWhile_imp hc
            · simpa using h5
            · rw [← h.1, hv]; simp
            · intro c hc
              rw [← h.1] at hc
              simpa using List.mem_takeWhile_imp hc
          · simp at h
        · simp at h
      · simp at h
    · simp at h
  · simp at h

theorem href_scan_mem (s : Str) : ∀ (skip : Nat) (v : Str), v ∈ href_scan skip s →
    ∃ (pre s1 : Str) (len : Nat), s = pre ++ s1 ∧ match_href s1 = some (v, len) := by
  induction s with
  | nil => intro skip v hv; simp [href_scan] at hv
  | cons c rest ih =>
    intro skip v hv
    cases skip with
    | succ k =>
      rw [href_scan] at hv
      obtain ⟨pre, s1, len, h1, h2⟩ := ih k v hv
      exact ⟨c :: pre, s1, len, by rw [h1]; rfl, h2⟩
    | zero =>
      rw [href_scan] at hv
      split at hv
      · rename_i v1 len hm
        rcases List.mem_cons.1 hv with hv | hv
        · subst hv
          exact ⟨[], c :: rest, len, rfl, hm⟩
        · obtain ⟨pre, s1, len1, h1, h2⟩ := ih _ v hv
          exact ⟨c :: pre, s1, len1, by rw [h1]; rfl, h2⟩
      · obtain ⟨pre, s1, len1, h1, h2⟩ := ih _ v hv
        exact ⟨c :: pre, s1, len1, by rw [h1]; rfl, h2⟩

theorem href_values_occurrence (body v : Str) (hv : v ∈ href_values body) :
    ∃ q1 q2 : Nat, href_occurrence body v q1 q2 := by
  obtain ⟨pre, s1, len, h1, h2⟩ := href_scan_mem body 0 v hv
  obtain ⟨kw, ws1, ws2, post, q1, q2, h3, h4⟩ := match_href_some s1 v len h2
  refine ⟨q1, q2, pre, kw, ws1, ws2, post, ?_, h4⟩
  rw [h1, h3]
  simp

/-! ## Claims on the href pattern -/

/-- C19 (as stated, refuted): the body `<a href="/x'>` holds one double quote and one
single quote, so no value in it is enclosed in a pair of the same quote character,
and yet with base `http://a` it yields the URL `http://a/x`. -/
theorem C19_mixed_quotes_counterexample :
    extract_links (lit "<a href=\"/x'>") (lit "http://a") = [lit "http://a/x"] ∧
    ¬ ∃ (v : Str) (q : Nat), href_occurrence (lit "<a href=\"/x'>") v q q := by
  refine ⟨by decide, ?_⟩
  rintro ⟨v, q, pre, kw, ws1, ws2, post, hbody, -, -, -, hq, -, -, -⟩
  have hc := congrArg (List.count q) hbody
  simp only [List.count_append, List.count_singleton_self] at hc
  have c1 : (lit "<a href=\"/x'>").count 34 = 1 := by decide
  have c2 : (lit "<a href=\"/x'>").count 39 = 1 := by decide
  simp only [is_quote, Bool.or_eq_true, beq_iff_eq] at hq
  rcases hq with rfl | rfl
  · rw [c1] at hc; omega
  · rw [c2] at hc; omega

/-- C19 (amended): each URL returned by `extract_links` is the resolution of a value
`v` that occurs in the body after the keyword `href` (any letter case), optional
whitespace, `=`, optional whitespace and a quote character, where `v` is non-empty,
holds no quote character and is followed by a quote character; the two quote
characters are each `"` or `'` and need not be the same. -/
theorem C19_href_occurrence (body base_url u : Str) (hu : u ∈ extract_links body base_url) :
    ∃ (v : Str) (q1 q2 : Nat), href_occurrence body v q1 q2 ∧
      resolve_spec (base_domain_of base_url) v = some u := by
  rw [extract_links_eq_filterMap] at hu
  obtain ⟨v, hv, hres⟩ := List.mem_filterMap.1 hu
  obtain ⟨q1, q2, hocc⟩ := href_values_occurrence body v hv
  exact ⟨v, q1, q2, hocc, hres⟩

/-- Witness of C19 (amended): the URL `http://a/x` of the body `<a href="/x'>`. -/
theorem C19_href_occurrence_witness :
    lit "http://a/x" ∈ extract_links (lit "<a href=\"/x'>") (lit "http://a") ∧
    ∃ (v : Str) (q1 q2 : Nat), href_occurrence (lit "<a href=\"/x'>") v q1 q2 ∧
      resolve_spec (base_domain_of (lit "http://a")) v = some (lit "http://a/x") :=
  ⟨by decide,
    C19_href_occurrence (lit "<a href=\"/x'>") (lit "http://a") (lit "http://a/x")
      (by decide)⟩

/-! ## The master in front of the worker handler -/

theorem crawl_echo_of_worker (env : CrawlServiceImpl.CallEnv) (st : CrawlServiceImpl.State)
    (html : Str) (workers : List Str) (next_worker : Nat) (url : Str) (doc_id : Nat)
    (hw : workers ≠ []) (out : Status × CrawlResponse × CrawlServiceImpl.State)
    (hout : CrawlServiceImpl.Crawl env st { url := url, doc_id := doc_id } html = some out) :
    (CrawlMaster.crawl (fun _ _ => (out.1, out.2.1))
        { workers := workers, next_worker := next_worker } url doc_id).result.doc_id = doc_id ∧
    (CrawlMaster.crawl (fun _ _ => (out.1, out.2.1))
        { workers := workers, next_worker := next_worker } url doc_id).result.url = url := by
  have hne : workers.isEmpty = false := by
    cases workers with
    | nil => exact absurd rfl hw
    | cons a l => rfl
  obtain ⟨-, -, h1, h2, -⟩ := CrawlServiceImpl.Crawl_props env st _ html out hout
  simp only [CrawlMaster.crawl, hne, Bool.false_eq_true, if_false]
  split <;> exact ⟨h1, h2⟩

end gidx
